import Mathlib

/-!
# LatinMass: the two fetch scripts

A shallow embedding of `scripts/fetch-data.js` (the live-status pipeline) and
`scripts/fetch-recent.js` (the recency pipeline), and the properties of their
CSV loader, classification loops, sorters and error paths.

Conventions of the embedding.

* A JavaScript string that the code takes apart character by character (CSV text,
  lines, fields) is a `List Char`.  The characters the code tests for (the double
  quote, the comma, the line feed, white space) are all single UTF-16 code units,
  so walking code points and walking code units split a string at the same places.
  Strings that are only stored, compared or handed on are `String`.
* Where the code cuts a string by index (`substring`), the string is the list of its
  UTF-16 code units, `utf16`, and so is the result, which need not be well-formed text.
* A value that may be `undefined` is an `Option`; truthiness of such a string is
  `truthy` (defined and non-empty).
* A `Date` is its time value in milliseconds, an `Int`; an invalid date (time value
  `NaN`) is `none`.  The text-to-date conversion of the engine is a parameter
  `parse : String → Option Int`.
* A `try { ... } catch` block is an `Except` valued body followed by the handler.
-/

namespace LatinMass

/-! ## String primitives of the engine -/

/-- The characters removed by `String.prototype.trim` (and skipped by `parseInt`):
ECMAScript white space (TAB, VT, FF, SP, NBSP, ZWNBSP and the space separators) and
line terminators (LF, CR, LS, PS). -/
def isJsWhiteSpace (c : Char) : Bool :=
  let n := c.toNat
  n == 0x09 || n == 0x0A || n == 0x0B || n == 0x0C || n == 0x0D || n == 0x20 ||
  n == 0xA0 || n == 0x1680 || (0x2000 ≤ n && n ≤ 0x200A) || n == 0x2028 ||
  n == 0x2029 || n == 0x202F || n == 0x205F || n == 0x3000 || n == 0xFEFF

/-- Drop the white space at the end of a string. -/
def trimEnd (s : List Char) : List Char :=
  (s.reverse.dropWhile isJsWhiteSpace).reverse

/-- `s.trim()`. -/
def jsTrim (s : List Char) : List Char :=
  trimEnd (s.dropWhile isJsWhiteSpace)

/-- `s.replace(/^"|"$/g, '')`: the global scan removes a double quote at index 0,
and then a double quote that ends the string at a later index. -/
def stripEdgeQuotes (s : List Char) : List Char :=
  let s1 := if s.head? = some '"' then s.tail else s
  if s1.getLast? = some '"' then s1.dropLast else s1

/-- `csvText.split('\n')`: the pieces between line feeds; never an empty array. -/
def splitLines : List Char → List (List Char)
  | [] => [[]]
  | c :: cs =>
    if c = '\n' then [] :: splitLines cs
    else
      match splitLines cs with
      | [] => [[c]]
      | l :: ls => (c :: l) :: ls

/-- The value of a decimal digit. -/
def decDigit? (c : Char) : Option Nat :=
  if '0' ≤ c ∧ c ≤ '9' then some (c.toNat - '0'.toNat) else none

/-- The value of a hexadecimal digit. -/
def hexDigit? (c : Char) : Option Nat :=
  if '0' ≤ c ∧ c ≤ '9' then some (c.toNat - '0'.toNat)
  else if 'a' ≤ c ∧ c ≤ 'f' then some (c.toNat - 'a'.toNat + 10)
  else if 'A' ≤ c ∧ c ≤ 'F' then some (c.toNat - 'A'.toNat + 10)
  else none

/-- Read the longest run of digits at the front of `s` in the given radix: the number
read so far and how many digits were read. -/
def readDigits (digit? : Char → Option Nat) (radix : Nat) : List Char → Nat → Nat → Nat × Nat
  | [], acc, n => (acc, n)
  | c :: cs, acc, n =>
    match digit? c with
    | some d => readDigits digit? radix cs (acc * radix + d) (n + 1)
    | none => (acc, n)

/-- The magnitude that stands for `Infinity`: 2^1024, which no finite double reaches. -/
def doubleLimit : Nat := 2 ^ 256 * 2 ^ 256 * 2 ^ 256 * 2 ^ 256

/-- The number of binary digits of `n`, counted with `fuel` steps at most. -/
def bitLength : Nat → Nat → Nat
  | 0, _ => 0
  | fuel + 1, n => if n = 0 then 0 else bitLength fuel (n / 2) + 1

/-- The Number value of a mathematical integer `n` of at most `fuel` binary digits: `n`
itself below 2^53, else `n` rounded to 53 significant binary digits, ties to even, and
`doubleLimit` (for `Infinity`) when the rounded value reaches 2^1024. -/
def roundToDouble (fuel n : Nat) : Nat :=
  if n < 2 ^ 53 then n
  else
    let e := bitLength fuel n - 53
    let q := n / 2 ^ e
    let r := n % 2 ^ e
    let q1 := if 2 * r > 2 ^ e ∨ (2 * r = 2 ^ e ∧ q % 2 = 1) then q + 1 else q
    if q1 * 2 ^ e ≥ doubleLimit then doubleLimit else q1 * 2 ^ e

/-- `parseInt(s)` with no radix argument: skip leading white space, take a sign,
take a `0x`/`0X` prefix as radix 16, read the longest run of digits; `none` is `NaN`
(no digit read).  The result is a Number: the integer read, rounded to a double
(`roundToDouble`; a run of `k` digits has at most `4 * k` binary digits), with
magnitude `doubleLimit` standing for `Infinity`. -/
def parseInt (s : List Char) : Option Int :=
  let s1 := s.dropWhile isJsWhiteSpace
  let neg := s1.head? = some '-'
  let s2 := if s1.head? = some '-' ∨ s1.head? = some '+' then s1.tail else s1
  let r :=
    match s2 with
    | '0' :: 'x' :: rest => readDigits hexDigit? 16 rest 0 0
    | '0' :: 'X' :: rest => readDigits hexDigit? 16 rest 0 0
    | _ => readDigits decDigit? 10 s2 0 0
  if r.2 = 0 then none
  else if neg then some (-(roundToDouble (4 * r.2) r.1 : Int))
  else some (roundToDouble (4 * r.2) r.1 : Int)

/-- `parseInt(s) || dflt`: `NaN` and zero are falsy. -/
def parseIntOr (s : List Char) (dflt : Int) : Int :=
  match parseInt s with
  | some n => if n = 0 then dflt else n
  | none => dflt

/-- The UTF-16 code units of a character: one unit in the basic plane, a surrogate pair
above it. -/
def charUnits (c : Char) : List Nat :=
  if c.toNat < 0x10000 then [c.toNat]
  else [0xD800 + (c.toNat - 0x10000) / 0x400, 0xDC00 + (c.toNat - 0x10000) % 0x400]

/-- The UTF-16 code units of a string: what `length`, indexing and `substring` see. -/
def utf16 (s : String) : List Nat :=
  s.data.flatMap charUnits

/-- Truthiness of a value that is a string or `undefined`. -/
def truthy (s : Option String) : Bool :=
  match s with
  | some v => v != ""
  | none => false

/-- `a || b` on two values that are strings or `undefined`. -/
def jsOr (a b : Option String) : Option String :=
  if truthy a then a else b

/-! ## The CSV loader (both scripts) -/

/-- The loop variables of `parseCSVLine`. -/
structure LineState where
  values : List (List Char)
  current : List Char
  inQuotes : Bool
deriving DecidableEq, Repr

/-- One turn of the loop of `parseCSVLine` on the character `char`. -/
def parseCSVLineStep (st : LineState) (char : Char) : LineState :=
  if char = '"' then
    { st with inQuotes := !st.inQuotes }
  else if char = ',' ∧ st.inQuotes = false then
    { st with values := st.values ++ [jsTrim st.current], current := [] }
  else
    { st with current := st.current ++ [char] }

/-- `parseCSVLine(line)` of `fetch-data.js`. -/
def parseCSVLine (line : List Char) : List (List Char) :=
  let st := line.foldl parseCSVLineStep { values := [], current := [], inQuotes := false }
  st.values ++ [jsTrim st.current]

/-- The second script carries its own copy of the splitter; it is embedded from
`fetch-recent.js` separately. -/
def Recent.parseCSVLine (line : List Char) : List (List Char) :=
  let st := line.foldl parseCSVLineStep { values := [], current := [], inQuotes := false }
  st.values ++ [jsTrim st.current]

/-- A channel record of the live-status script. -/
structure Channel where
  name : String
  url : String
  channelId : String
deriving DecidableEq, Repr

/-- A channel record of the recency script. -/
structure Recent.Channel where
  channelId : String
  maxDays : Int
  maxVideos : Int
  description : String
deriving DecidableEq, Repr

/-- A cleaned field: `v.replace(/^"|"$/g, '').trim()`. -/
def cleanField (v : List Char) : String :=
  String.mk (jsTrim (stripEdgeQuotes v))

/-- The loop of `parseCSV` in `fetch-data.js`, from row `i` on. -/
def parseCSVLoop (lines : List (List Char)) (i : Nat) (channels : List Channel) :
    List Channel :=
  if h : i < lines.length then
    let line := jsTrim (lines.get ⟨i, h⟩)
    if line = [] then parseCSVLoop lines (i + 1) channels
    else
      let values := parseCSVLine line
      if values.length ≥ 3 then
        parseCSVLoop lines (i + 1) (channels ++ [{
          name := cleanField (values.getD 0 [])
          url := cleanField (values.getD 1 [])
          channelId := cleanField (values.getD 2 []) }])
      else parseCSVLoop lines (i + 1) channels
  else channels
termination_by lines.length - i

/-- `parseCSV(csvText)` of `fetch-data.js`. -/
def parseCSV (csvText : List Char) : List Channel :=
  parseCSVLoop (splitLines csvText) 1 []

/-- The loop of `parseCSV` in `fetch-recent.js`, from row `i` on. -/
def Recent.parseCSVLoop (lines : List (List Char)) (i : Nat) (channels : List Recent.Channel) :
    List Recent.Channel :=
  if h : i < lines.length then
    let line := jsTrim (lines.get ⟨i, h⟩)
    if line = [] then Recent.parseCSVLoop lines (i + 1) channels
    else
      let values := Recent.parseCSVLine line
      if values.length ≥ 4 then
        Recent.parseCSVLoop lines (i + 1) (channels ++ [{
          channelId := cleanField (values.getD 0 [])
          maxDays := parseIntOr (values.getD 1 []) 7
          maxVideos := parseIntOr (values.getD 2 []) 5
          description := cleanField (values.getD 3 []) }])
      else Recent.parseCSVLoop lines (i + 1) channels
  else channels
termination_by lines.length - i

/-- `parseCSV(csvText)` of `fetch-recent.js`. -/
def Recent.parseCSV (csvText : List Char) : List Recent.Channel :=
  Recent.parseCSVLoop (splitLines csvText) 1 []

/-! ## Platform data -/

/-- The `liveStreamingDetails` part of a video resource. -/
structure LiveStreamingDetails where
  actualEndTime : Option String
  actualStartTime : Option String
  scheduledStartTime : Option String
deriving DecidableEq, Repr

/-- The thumbnail URLs read by the scripts: `thumbnails.medium?.url` and
`thumbnails.default?.url`. -/
structure Thumbnails where
  mediumUrl : Option String
  defaultUrl : Option String
deriving DecidableEq, Repr

/-- The `snippet` part of a video resource. -/
structure Snippet where
  title : String
  channelTitle : String
  description : Option String
  publishedAt : String
  liveBroadcastContent : String
  thumbnails : Thumbnails
deriving DecidableEq, Repr

/-- A video resource of the video-details answer. -/
structure Item where
  id : String
  snippet : Snippet
  liveStreamingDetails : Option LiveStreamingDetails
deriving DecidableEq, Repr

/-- An error payload `{ error: { message } }`. -/
structure ApiError where
  message : String
deriving DecidableEq, Repr

/-- The playlist answer: `error`, and `items` with their `contentDetails.videoId`. -/
structure PlaylistData where
  error : Option ApiError
  items : Option (List String)
deriving DecidableEq, Repr

/-- The video-details answer. -/
structure VideosData where
  error : Option ApiError
  items : Option (List Item)
deriving DecidableEq, Repr

/-- What the platform answers while one channel is fetched: the playlist call (by the
code units of the playlist identifier) and the video-details call (by the joined video identifiers),
each of which may fail with an exception (network failure, malformed body), and the
clock read by `new Date()`. -/
structure ChannelWorld where
  playlist : List Nat → Except String PlaylistData
  videos : String → Except String VideosData
  now : Int

/-- `new Date(v)` for a string or `undefined`: `none` is an invalid date.  The empty
string and `undefined` never give a valid date; any other text is read by `parse`. -/
def newDate (parse : String → Option Int) (v : Option String) : Option Int :=
  match v with
  | some s => if s = "" then none else parse s
  | none => none

/-- `'UU' + channelId.substring(2)` of `fetch-data.js`, in code units. -/
def uploadsPlaylistId (channelId : String) : List Nat :=
  utf16 "UU" ++ (utf16 channelId).drop 2

/-- `'UU' + channelId.substring(2)` of `fetch-recent.js`, in code units. -/
def Recent.uploadsPlaylistId (channelId : String) : List Nat :=
  utf16 "UU" ++ (utf16 channelId).drop 2

/-- `ids.join(',')`. -/
def joinIds (ids : List String) : String :=
  ",".intercalate ids

/-! ## The live-status script: `fetchChannelLivestreams` -/

/-- An output entry of the live-status script; `scheduledTime = none` is `null`. -/
structure LiveEntry where
  id : String
  title : String
  channel : String
  channelId : String
  thumbnail : Option String
  status : String
  scheduledTime : Option String
deriving DecidableEq, Repr

/-- The object literal pushed by the classification loop, for the given status and
scheduled time. -/
def mkLiveEntry (channelId channelName : String) (item : Item) (status : String)
    (scheduledTime : Option String) : LiveEntry :=
  { id := item.id
    title := item.snippet.title
    channel := channelName
    channelId := channelId
    thumbnail := jsOr item.snippet.thumbnails.mediumUrl item.snippet.thumbnails.defaultUrl
    status := status
    scheduledTime := scheduledTime }

/-- `(now - scheduleDate) / (1000 * 60 * 60)`, as an exact quotient.  The loop only
asks whether it exceeds 1, which the double-precision quotient of two whole numbers of
milliseconds does exactly when the exact quotient does. -/
def hoursPassed (now scheduleDate : Int) : ℚ :=
  ((now - scheduleDate : Int) : ℚ) / (1000 * 60 * 60)

/-- One turn of the classification loop of `fetchChannelLivestreams`; a `continue`
leaves `videos` as it is. -/
def classifyStep (parse : String → Option Int) (now next24Hours : Int)
    (channelId channelName : String) (videos : List LiveEntry) (item : Item) :
    List LiveEntry :=
  let liveDetails := item.liveStreamingDetails
  let liveBroadcastContent := item.snippet.liveBroadcastContent
  if liveBroadcastContent = "none" ∧ liveDetails = none then videos
  else
    let actualEndTime := liveDetails.bind (·.actualEndTime)
    let actualStartTime := liveDetails.bind (·.actualStartTime)
    let scheduledTime := liveDetails.bind (·.scheduledStartTime)
    if truthy actualEndTime then videos
    else if liveBroadcastContent = "live" ∨
        (truthy actualStartTime = true ∧ truthy actualEndTime = false) then
      videos ++ [mkLiveEntry channelId channelName item "live" none]
    else if liveBroadcastContent = "upcoming" ∧ truthy scheduledTime = true then
      match newDate parse scheduledTime with
      | none => videos
      | some scheduleDate =>
        if scheduleDate < now ∧ hoursPassed now scheduleDate > 1 then videos
        else if scheduleDate > next24Hours then videos
        else videos ++ [mkLiveEntry channelId channelName item "upcoming" scheduledTime]
    else if liveBroadcastContent = "upcoming" ∧ truthy scheduledTime = false then videos
    else videos

/-- The classification loop of `fetchChannelLivestreams` over the fetched items, at
fetch time `now`. -/
def classifyLoop (parse : String → Option Int) (now : Int) (channelId channelName : String)
    (items : List Item) : List LiveEntry :=
  items.foldl (classifyStep parse now (now + 24 * 60 * 60 * 1000) channelId channelName) []

/-- The `try` block of `fetchChannelLivestreams`; `.error` is a raised exception. -/
def fetchChannelLivestreamsTry (parse : String → Option Int) (w : ChannelWorld)
    (channelId channelName : String) : Except String (List LiveEntry) :=
  match w.playlist (uploadsPlaylistId channelId) with
  | .error e => .error e
  | .ok playlistData =>
    if playlistData.error.isSome then .ok []
    else
      match playlistData.items with
      | none => .ok []
      | some [] => .ok []
      | some (id :: ids) =>
        match w.videos (joinIds (id :: ids)) with
        | .error e => .error e
        | .ok videosData =>
          match videosData.error with
          | some err => .error err.message
          | none =>
            .ok (classifyLoop parse w.now channelId channelName (videosData.items.getD []))

/-- `fetchChannelLivestreams(channelId, channelName)`: the `try` block, and `[]` from
the `catch` handler. -/
def fetchChannelLivestreams (parse : String → Option Int) (w : ChannelWorld)
    (channelId channelName : String) : List LiveEntry :=
  match fetchChannelLivestreamsTry parse w channelId channelName with
  | .ok videos => videos
  | .error _ => []

/-- The per-channel loop of `main` in `fetch-data.js`: every channel, paired with
what the platform answers for it, is fetched in turn and its entries are pushed onto
`allVideos`. -/
def collectLivestreams (parse : String → Option Int) (runs : List (Channel × ChannelWorld)) :
    List LiveEntry :=
  runs.foldl
    (fun allVideos run =>
      allVideos ++ fetchChannelLivestreams parse run.2 run.1.channelId run.1.name) []

/-! ## Sorting -/

/-- Subtraction of two dates, `NaN` (`none`) when either is invalid. -/
def dateDiff (a b : Option Int) : Option Int :=
  match a, b with
  | some x, some y => some (x - y)
  | _, _ => none

/-- `Array.prototype.sort(comparefn)`: a comparator result of `NaN` or `undefined`
counts as `+0`, and the sort is stable.  It is the stable insertion sort under
"`comparefn(a, b)` is not positive".  For a comparator that is consistent on the list
every stable sort returns this very list, and the embedding is exact.  For an
inconsistent comparator the language leaves the order to the engine, which may order
differently from an insertion sort; nothing here rests on that case. -/
def arraySort {α : Type} (comparefn : α → α → Option Int) (l : List α) : List α :=
  l.insertionSort (fun a b => (comparefn a b).getD 0 ≤ 0)

/-- The comparator of `main` in `fetch-data.js`.  The operand of its last `return` is
not part of the available source; it is the parameter `rest` (`none` for `NaN` or
`undefined`). -/
def compareLive (parse : String → Option Int) (rest : Option Int) (a b : LiveEntry) :
    Option Int :=
  if a.status = "live" ∧ b.status ≠ "live" then some (-1)
  else if a.status ≠ "live" ∧ b.status = "live" then some 1
  else if truthy a.scheduledTime = true ∧ truthy b.scheduledTime = true then
    dateDiff (newDate parse a.scheduledTime) (newDate parse b.scheduledTime)
  else rest

/-- The `return` statements of the comparator of `main` in `fetch-data.js`, in source
order. -/
inductive CompareBranch where
  | liveFirst
  | liveSecond
  | bySchedule
  | last
deriving DecidableEq, Repr

/-- The `return` statement that the comparator of `main` in `fetch-data.js` executes on
`a` and `b`: the path conditions of `compareLive`. -/
def compareLiveBranch (a b : LiveEntry) : CompareBranch :=
  if a.status = "live" ∧ b.status ≠ "live" then .liveFirst
  else if a.status ≠ "live" ∧ b.status = "live" then .liveSecond
  else if truthy a.scheduledTime = true ∧ truthy b.scheduledTime = true then .bySchedule
  else .last

/-- `allVideos.sort(...)` of `main` in `fetch-data.js`. -/
def sortLive (parse : String → Option Int) (rest : Option Int) (allVideos : List LiveEntry) :
    List LiveEntry :=
  arraySort (compareLive parse rest) allVideos

/-! ## The recency script: `fetchChannelVideos` and `main` -/

/-- An output entry of the recency script. -/
structure Recent.Entry where
  id : String
  title : String
  channel : String
  channelId : String
  description : List Nat
  thumbnail : Option String
  publishedAt : String
  category : String
deriving DecidableEq, Repr

/-- `description?.substring(0, 200) || ''`, in code units: the first 200 code units of
the description, and the empty string for an absent or empty one. -/
def Recent.snippetDescription (description : Option String) : List Nat :=
  match description with
  | some d => if (utf16 d).take 200 = [] then [] else (utf16 d).take 200
  | none => []

/-- The object literal pushed by the loop of `fetchChannelVideos`. -/
def Recent.mkEntry (channel : Recent.Channel) (item : Item) : Recent.Entry :=
  { id := item.id
    title := item.snippet.title
    channel := item.snippet.channelTitle
    channelId := channel.channelId
    description := Recent.snippetDescription item.snippet.description
    thumbnail := jsOr item.snippet.thumbnails.mediumUrl item.snippet.thumbnails.defaultUrl
    publishedAt := item.snippet.publishedAt
    category := channel.description }

/-- The comparison `x > y` of two numbers, false when either is `NaN`. -/
def numGt (x y : Option Int) : Bool :=
  match x, y with
  | some a, some b => decide (a > b)
  | _, _ => false

/-- The loop of `fetchChannelVideos` over the remaining items, with the entries pushed
so far; `break` returns them at once. -/
def Recent.videosLoop (parse : String → Option Int) (now maxAgeMs : Int)
    (channel : Recent.Channel) : List Item → List Recent.Entry → List Recent.Entry
  | [], videos => videos
  | item :: rest, videos =>
    let publishedAt := newDate parse (some item.snippet.publishedAt)
    let ageMs := dateDiff (some now) publishedAt
    if numGt ageMs (some maxAgeMs) = true then
      Recent.videosLoop parse now maxAgeMs channel rest videos
    else if item.snippet.liveBroadcastContent ≠ "none" then
      Recent.videosLoop parse now maxAgeMs channel rest videos
    else
      let videos1 := videos ++ [Recent.mkEntry channel item]
      if (videos1.length : Int) ≥ channel.maxVideos then videos1
      else Recent.videosLoop parse now maxAgeMs channel rest videos1

/-- The filtering part of `fetchChannelVideos`: the loop over the fetched items at
fetch time `now`, from an empty `videos`. -/
def Recent.filterVideos (parse : String → Option Int) (now : Int) (channel : Recent.Channel)
    (items : List Item) : List Recent.Entry :=
  Recent.videosLoop parse now (channel.maxDays * 24 * 60 * 60 * 1000) channel items []

/-- The `try` block of `fetchChannelVideos`; `.error` is a raised exception. -/
def Recent.fetchChannelVideosTry (parse : String → Option Int) (w : ChannelWorld)
    (channel : Recent.Channel) : Except String (List Recent.Entry) :=
  match w.playlist (Recent.uploadsPlaylistId channel.channelId) with
  | .error e => .error e
  | .ok playlistData =>
    if playlistData.error.isSome then .ok []
    else
      match playlistData.items with
      | none => .ok []
      | some [] => .ok []
      | some (id :: ids) =>
        match w.videos (joinIds (id :: ids)) with
        | .error e => .error e
        | .ok videosData =>
          match videosData.error with
          | some err => .error err.message
          | none => .ok (Recent.filterVideos parse w.now channel (videosData.items.getD []))

/-- `fetchChannelVideos(channel)`: the `try` block, and `[]` from the `catch` handler. -/
def Recent.fetchChannelVideos (parse : String → Option Int) (w : ChannelWorld)
    (channel : Recent.Channel) : List Recent.Entry :=
  match Recent.fetchChannelVideosTry parse w channel with
  | .ok videos => videos
  | .error _ => []

/-- The comparator of `main` in `fetch-recent.js`:
`new Date(b.publishedAt) - new Date(a.publishedAt)`. -/
def Recent.compareRecent (parse : String → Option Int) (a b : Recent.Entry) : Option Int :=
  dateDiff (newDate parse (some b.publishedAt)) (newDate parse (some a.publishedAt))

/-- `allVideos.sort(...)` of `main` in `fetch-recent.js`. -/
def Recent.sortRecent (parse : String → Option Int) (allVideos : List Recent.Entry) :
    List Recent.Entry :=
  arraySort (Recent.compareRecent parse) allVideos

/-- The answer of the spreadsheet endpoint: `response.ok` and the body text. -/
structure SheetResponse where
  ok : Bool
  text : List Char
deriving DecidableEq, Repr

/-- The document serialised to `recent-videos.json`. -/
structure Recent.ResultDocument where
  lastUpdated : String
  videos : List Recent.Entry
deriving DecidableEq, Repr

/-- The calls on the file system made by `main`. -/
inductive Recent.FsCall where
  | mkdirSync
  | writeFileSync (doc : Recent.ResultDocument)
deriving DecidableEq, Repr

/-- What surrounds one run of `fetch-recent.js`: the credential of the environment,
the text of `new Date().toISOString()`, the answer of the spreadsheet endpoint (or
the exception of the request), what the platform answers for the channel of each
turn of the loop, and whether the data directory exists. -/
structure Recent.World where
  apiKey : Option String
  isoTime : String
  sheet : Except String SheetResponse
  channel : Nat → ChannelWorld
  dataDirExists : Bool

/-- `fetchChannelsFromSheet()` of `fetch-recent.js`. -/
def Recent.fetchChannelsFromSheet (w : Recent.World) : Except String (List Recent.Channel) :=
  match w.sheet with
  | .error e => .error e
  | .ok response =>
    if response.ok = false then .error "Failed to fetch from Google Sheets"
    else .ok (Recent.parseCSV response.text)

/-- The per-channel loop of `main` in `fetch-recent.js`, from turn `i` on. -/
def Recent.collectVideos (parse : String → Option Int) (world : Nat → ChannelWorld) :
    List Recent.Channel → Nat → List Recent.Entry → List Recent.Entry
  | [], _, allVideos => allVideos
  | channel :: rest, i, allVideos =>
    Recent.collectVideos parse world rest (i + 1)
      (allVideos ++ Recent.fetchChannelVideos parse (world i) channel)

/-- The `try` block of `main` in `fetch-recent.js`: the value assigned to
`result.videos`, or the exception raised before the assignment. -/
def Recent.mainTry (parse : String → Option Int) (w : Recent.World) :
    Except String (List Recent.Entry) :=
  match Recent.fetchChannelsFromSheet w with
  | .error e => .error e
  | .ok channels => .ok (Recent.sortRecent parse (Recent.collectVideos parse w.channel channels 0 []))

/-- `main()` of `fetch-recent.js`: the calls it makes on the file system, in order, or
the exception it raises. -/
def Recent.main (parse : String → Option Int) (w : Recent.World) :
    Except String (List Recent.FsCall) :=
  if truthy w.apiKey = false then .error "YOUTUBE_API_KEY is not set"
  else
    let videos :=
      match Recent.mainTry parse w with
      | .ok allVideos => allVideos
      | .error _ => []
    let result : Recent.ResultDocument := { lastUpdated := w.isoTime, videos := videos }
    let mk := if w.dataDirExists = false then [Recent.FsCall.mkdirSync] else []
    .ok (mk ++ [Recent.FsCall.writeFileSync result])

/-! ## Properties named by the specification, and sample inputs -/

/-- The actual-end timestamp of an item, `liveDetails?.actualEndTime`. -/
def actualEndTime (item : Item) : Option String :=
  item.liveStreamingDetails.bind (·.actualEndTime)

/-- The actual-start timestamp of an item, `liveDetails?.actualStartTime`. -/
def actualStartTime (item : Item) : Option String :=
  item.liveStreamingDetails.bind (·.actualStartTime)

/-- The scheduled-start timestamp of an item, `liveDetails?.scheduledStartTime`. -/
def scheduledStartTime (item : Item) : Option String :=
  item.liveStreamingDetails.bind (·.scheduledStartTime)

/-- The acceptance predicate of the live-status pipeline in the words of the
specification: no actual-end timestamp (none, or an empty one), and either tag `live`
or an actual start without an actual end, or tag `upcoming` with a scheduled time that
is a valid date `t` with `lower (now - 1h) t` and `t ≤ now + 24h`.  The relation
`lower` is `<` for a window open below and `≤` for a window closed below. -/
def LiveAccepted (lower : Int → Int → Prop) (parse : String → Option Int) (now : Int)
    (item : Item) : Prop :=
  truthy (actualEndTime item) = false ∧
  ((item.snippet.liveBroadcastContent = "live" ∨
      (truthy (actualStartTime item) = true ∧ truthy (actualEndTime item) = false)) ∨
    (item.snippet.liveBroadcastContent = "upcoming" ∧
      ∃ t, newDate parse (scheduledStartTime item) = some t ∧
        lower (now - 60 * 60 * 1000) t ∧ t ≤ now + 24 * 60 * 60 * 1000))

/-- The entry `e` was built from `item` by the classification loop. -/
def EmittedFrom (channelId channelName : String) (item : Item) (e : LiveEntry) : Prop :=
  ∃ status scheduledTime, e = mkLiveEntry channelId channelName item status scheduledTime

/-- A sample date conversion: two timestamp texts and their time values; every other
text is an invalid date. -/
def sampleParse (s : String) : Option Int :=
  if s = "2023-11-14T22:13:20Z" then some 1700000000000
  else if s = "2023-11-15T22:13:20Z" then some 1700086400000
  else none

/-- A sample upcoming broadcast scheduled at `2023-11-14T22:13:20Z`. -/
def sampleUpcoming : Item :=
  { id := "vid1"
    snippet :=
      { title := "Missa Cantata", channelTitle := "Chapel", description := none
        publishedAt := "2023-11-14T22:13:20Z", liveBroadcastContent := "upcoming"
        thumbnails := { mediumUrl := some "m.jpg", defaultUrl := none } }
    liveStreamingDetails :=
      some { actualEndTime := none, actualStartTime := none
             scheduledStartTime := some "2023-11-14T22:13:20Z" } }

/-- A sample channel record of the recency script. -/
def sampleChannel : Recent.Channel :=
  { channelId := "UCabc", maxDays := 7, maxVideos := 5, description := "Sermons" }

/-- A sample regular video published at `2023-11-14T22:13:20Z`. -/
def sampleVideo : Item :=
  { id := "vid3"
    snippet :=
      { title := "Sermon", channelTitle := "Chapel", description := some "Homily"
        publishedAt := "2023-11-14T22:13:20Z", liveBroadcastContent := "none"
        thumbnails := { mediumUrl := none, defaultUrl := some "d.jpg" } }
    liveStreamingDetails := none }

/-- A sample regular video published a day later, at `2023-11-15T22:13:20Z`. -/
def sampleNewer : Item :=
  { id := "vid4"
    snippet :=
      { title := "Vespers", channelTitle := "Chapel", description := none
        publishedAt := "2023-11-15T22:13:20Z", liveBroadcastContent := "none"
        thumbnails := { mediumUrl := some "m.jpg", defaultUrl := none } }
    liveStreamingDetails := none }

/-- A sample sheet of the recency script: a header row and one data row whose third
field is `-3`. -/
def sampleSheet : List Char :=
  "channelId,maxDays,maxVideos,description\nUCabc,7,-3,Sermons".toList

/-- The age test in the words of the specification: the published time is a valid date
and `now` minus it is at most `maxDays` days. -/
def Recent.AgeWithin (parse : String → Option Int) (now maxDays : Int) (item : Item) : Prop :=
  ∃ t, newDate parse (some item.snippet.publishedAt) = some t ∧
    now - t ≤ maxDays * 24 * 60 * 60 * 1000

/-- The age test as the loop applies it: whenever the published time is a valid date,
`now` minus it is at most `maxDays` days. -/
def Recent.AgeNotBeyond (parse : String → Option Int) (now maxDays : Int) (item : Item) :
    Prop :=
  ∀ t, newDate parse (some item.snippet.publishedAt) = some t →
    now - t ≤ maxDays * 24 * 60 * 60 * 1000

/-- No entry that is not live stands before a live entry. -/
def LiveFirst (l : List LiveEntry) : Prop :=
  l.Pairwise (fun a b => ¬ (a.status ≠ "live" ∧ b.status = "live"))

/-- The sequence is non-increasing in published time: of two entries with valid
published times, the earlier in the sequence is not the older. -/
def Recent.NewestFirst (parse : String → Option Int) (l : List Recent.Entry) : Prop :=
  l.Pairwise (fun a b => ∀ ta tb, newDate parse (some a.publishedAt) = some ta →
    newDate parse (some b.publishedAt) = some tb → tb ≤ ta)

/-- The character at index `i` of `line` is a comma, and the number of double quotes
before it is odd when `inside` is true (the comma lies inside a quote span) and even
when `inside` is false (it lies outside). -/
def commaAt (line : List Char) (inside : Bool) (i : Nat) : Bool :=
  line.get? i == some ',' && ((line.take i).count '"' % 2 == 1) == inside

/-- The number of commas of `line` outside double-quote spans. -/
def commasOutsideQuotes (line : List Char) : Nat :=
  (List.range line.length).countP (commaAt line false)

/-- The number of commas of `line` inside double-quote spans. -/
def commasInsideQuotes (line : List Char) : Nat :=
  (List.range line.length).countP (commaAt line true)

/-- The number of commas found in the fields. -/
def commasInFields (fields : List (List Char)) : Nat :=
  (fields.map (List.count ',')).sum

/-- The commas of `line` with quote parity `inside`, counted by a scan that starts
inside a quote span when `q` is true. -/
def commasFrom (inside : Bool) : Bool → List Char → Nat
  | _, [] => 0
  | q, c :: cs =>
    if c = '"' then commasFrom inside (!q) cs
    else if c = ',' ∧ q = inside then 1 + commasFrom inside q cs
    else commasFrom inside q cs

/-- The test `commaAt` for a line that starts inside a quote span when `q` is true. -/
def commaAtFrom (q : Bool) (line : List Char) (inside : Bool) (i : Nat) : Bool :=
  line.get? i == some ',' && (xor q ((line.take i).count '"' % 2 == 1)) == inside

/-- The sample line of the specification: a quoted first field holding a comma. -/
def sampleLine : List Char :=
  "\"Channel, Official\",https://x,UC123".toList

/-- The platform reports an error payload while the channel is fetched: on the playlist
call, or on the video-details call that follows a playlist answer with items. -/
def ReportsError (w : ChannelWorld) (channelId : String) : Prop :=
  (∃ playlistData, w.playlist (uploadsPlaylistId channelId) = .ok playlistData ∧
    playlistData.error.isSome = true) ∨
  (∃ playlistData id ids videosData,
    w.playlist (uploadsPlaylistId channelId) = .ok playlistData ∧
    playlistData.error = none ∧ playlistData.items = some (id :: ids) ∧
    w.videos (joinIds (id :: ids)) = .ok videosData ∧ videosData.error.isSome = true)

/-- What one row contributes to the records of the live-status loader, in the words of
the specification: nothing for a blank row or a row of fewer than 3 fields, and one
record otherwise.  A row is read after trimming, as the loader does. -/
def rowRecord (row : List Char) : Option Channel :=
  if jsTrim row = [] then none
  else if (parseCSVLine (jsTrim row)).length < 3 then none
  else some
    { name := cleanField ((parseCSVLine (jsTrim row)).getD 0 [])
      url := cleanField ((parseCSVLine (jsTrim row)).getD 1 [])
      channelId := cleanField ((parseCSVLine (jsTrim row)).getD 2 []) }

/-- What one row contributes to the records of the recency loader: nothing for a blank
row or a row of fewer than 4 fields, and one record otherwise. -/
def Recent.rowRecord (row : List Char) : Option Recent.Channel :=
  if jsTrim row = [] then none
  else if (Recent.parseCSVLine (jsTrim row)).length < 4 then none
  else some
    { channelId := cleanField ((Recent.parseCSVLine (jsTrim row)).getD 0 [])
      maxDays := parseIntOr ((Recent.parseCSVLine (jsTrim row)).getD 1 []) 7
      maxVideos := parseIntOr ((Recent.parseCSVLine (jsTrim row)).getD 2 []) 5
      description := cleanField ((Recent.parseCSVLine (jsTrim row)).getD 3 []) }

/-- A sample channel record of the live-status script. -/
def sampleLiveChannel : Channel :=
  { name := "Chapel", url := "https://x", channelId := "UCabc" }

/-- A sample answer of the platform for one channel: the playlist call carries an error
payload. -/
def sampleErrorWorld : ChannelWorld :=
  { playlist := fun _ => .ok { error := some { message := "quotaExceeded" }, items := none }
    videos := fun _ => .error "not called"
    now := 0 }

/-- A sample run of the recency script in which the spreadsheet endpoint answers with
a non-OK response. -/
def failingSheetWorld : Recent.World :=
  { apiKey := some "key"
    isoTime := "2023-11-14T22:13:20.000Z"
    sheet := .ok { ok := false, text := [] }
    channel := fun _ =>
      { playlist := fun _ => .error "not called", videos := fun _ => .error "not called"
        now := 0 }
    dataDirExists := true }

/-- The run writes nothing: it raises, or none of its calls is a write of the output
file. -/
def Recent.WritesNothing (r : Except String (List Recent.FsCall)) : Prop :=
  match r with
  | .error _ => True
  | .ok calls => ∀ doc, Recent.FsCall.writeFileSync doc ∉ calls

/-- A sample broadcast that is on air. -/
def sampleLive : Item :=
  { id := "vid5"
    snippet :=
      { title := "Missa Solemnis", channelTitle := "Chapel", description := none
        publishedAt := "2023-11-14T22:13:20Z", liveBroadcastContent := "live"
        thumbnails := { mediumUrl := some "m.jpg", defaultUrl := none } }
    liveStreamingDetails :=
      some { actualEndTime := none, actualStartTime := some "2023-11-14T22:13:20Z"
             scheduledStartTime := some "2023-11-14T22:13:20Z" } }

/-- A field is clean: it neither starts nor ends with white space (as removed by
`trim`) or with a double quote. -/
def Clean (f : List Char) : Prop :=
  (∀ c, f.head? = some c → isJsWhiteSpace c = false ∧ c ≠ '"') ∧
  (∀ c, f.getLast? = some c → isJsWhiteSpace c = false ∧ c ≠ '"')

/-- The two tests of the loop of `fetchChannelVideos` on an item: the tag is `none`, and
the age is at most `maxDays` days whenever the published time is a valid date. -/
def Recent.passes (parse : String → Option Int) (now maxDays : Int) (item : Item) : Bool :=
  decide (item.snippet.liveBroadcastContent = "none") &&
    match newDate parse (some item.snippet.publishedAt) with
    | some t => decide (now - t ≤ maxDays * 24 * 60 * 60 * 1000)
    | none => true

/-- The acceptance predicate in the words of the specification: the tag is `none`, the
published time is a valid date and the age is at most `maxDays` days. -/
def Recent.withinAge (parse : String → Option Int) (now maxDays : Int) (item : Item) : Bool :=
  decide (item.snippet.liveBroadcastContent = "none") &&
    match newDate parse (some item.snippet.publishedAt) with
    | some t => decide (now - t ≤ maxDays * 24 * 60 * 60 * 1000)
    | none => false

/-- The first `n` code units of a description; none for an absent description. -/
def firstUnits (n : Nat) (description : Option String) : List Nat :=
  match description with
  | some d => (utf16 d).take n
  | none => []

/-- The integer given by a field that is a decimal integer: an optional sign followed
by one or more decimal digits and nothing else. -/
def decimalInteger? (s : List Char) : Option Int :=
  let digits := if s.head? = some '-' ∨ s.head? = some '+' then s.tail else s
  if digits ≠ [] ∧ digits.all (fun c => (decDigit? c).isSome) = true then
    let value : Nat := digits.foldl (fun acc c => acc * 10 + (decDigit? c).getD 0) 0
    if s.head? = some '-' then some (-(value : Int)) else some (value : Int)
  else none

/-- A sample sheet of the recency script whose second and third fields are `0`. -/
def zeroSheet : List Char :=
  "channelId,maxDays,maxVideos,description\nUCabc,0,0,Sermons".toList

/-- The tunables in the words of the specification: `maxDays` and `maxVideos` are the
integers given in the second and third field of the row, and the defaults 7 and 5 when
the field gives no integer. -/
def Recent.SetsGivenIntegers (row : List Char) (ch : Recent.Channel) : Prop :=
  (∀ n, decimalInteger? ((Recent.parseCSVLine (jsTrim row)).getD 1 []) = some n →
    ch.maxDays = n) ∧
  (decimalInteger? ((Recent.parseCSVLine (jsTrim row)).getD 1 []) = none → ch.maxDays = 7) ∧
  (∀ n, decimalInteger? ((Recent.parseCSVLine (jsTrim row)).getD 2 []) = some n →
    ch.maxVideos = n) ∧
  (decimalInteger? ((Recent.parseCSVLine (jsTrim row)).getD 2 []) = none → ch.maxVideos = 5)

/-- How a tunable is read from its field: it is the number that `parseInt` returns when
that is not zero, and the default when `parseInt` returns `NaN` or zero; and `parseInt`
reads a field that is a decimal integer of magnitude below 2^53 as that integer. -/
def Recent.ReadsTunable (field : List Char) (dflt value : Int) : Prop :=
  (∀ n, parseInt field = some n → n ≠ 0 → value = n) ∧
  ((parseInt field = none ∨ parseInt field = some 0) → value = dflt) ∧
  (∀ n, decimalInteger? field = some n → -(2 ^ 53) < n → n < 2 ^ 53 →
    parseInt field = some n)

/-- The shape of an entry of the live-status script: status `live` with no scheduled
time (`null`), or status `upcoming` with a non-empty scheduled time that is a valid
date. -/
def EmittedShape (parse : String → Option Int) (e : LiveEntry) : Prop :=
  (e.status = "live" ∧ e.scheduledTime = none) ∨
  (e.status = "upcoming" ∧
    ∃ s t, e.scheduledTime = some s ∧ s ≠ "" ∧ newDate parse (some s) = some t)

/-- The entries with status `upcoming` stand in non-decreasing order of scheduled
time. -/
def UpcomingAscending (parse : String → Option Int) (l : List LiveEntry) : Prop :=
  l.Pairwise (fun a b => a.status = "upcoming" → b.status = "upcoming" →
    ∃ ta tb, newDate parse a.scheduledTime = some ta ∧
      newDate parse b.scheduledTime = some tb ∧ ta ≤ tb)

/-- A sample answer of the platform for one channel: one upload, the sample broadcast
on air. -/
def sampleLiveWorld : ChannelWorld :=
  { playlist := fun _ => .ok { error := none, items := some ["vid5"] }
    videos := fun _ => .ok { error := none, items := some [sampleLive] }
    now := 1700003600000 }

/-- The items of the video-details answer that the loop of a fetch goes over, for the
playlist identifier of the channel; none when the fetch returns before its loop (an
exception, an error payload, no uploads). -/
def fetchedItems (w : ChannelWorld) (playlistId : List Nat) : List Item :=
  match w.playlist playlistId with
  | .error _ => []
  | .ok playlistData =>
    if playlistData.error.isSome then []
    else
      match playlistData.items with
      | none => []
      | some [] => []
      | some (id :: ids) =>
        match w.videos (joinIds (id :: ids)) with
        | .error _ => []
        | .ok videosData =>
          match videosData.error with
          | some _ => []
          | none => videosData.items.getD []

/-- The published time of the item is a valid date, as the platform sends it. -/
def Recent.dated (parse : String → Option Int) (item : Item) : Bool :=
  (newDate parse (some item.snippet.publishedAt)).isSome

/-- A sample channel record of the recency script with a cap of one video. -/
def sampleCapChannel : Recent.Channel :=
  { channelId := "UCabc", maxDays := 7, maxVideos := 1, description := "Sermons" }

/-! ## Theorems: the classification loop of the live-status script -/

/-- The test `hoursPassed > 1` of the loop, on time values: more than one hour of
milliseconds lies between the scheduled time and now. -/
theorem hoursPassed_gt_one (now t : Int) :
    hoursPassed now t > 1 ↔ now - t > 60 * 60 * 1000 := by
  unfold hoursPassed
  rw [gt_iff_lt, lt_div_iff₀ (by norm_num)]
  constructor
  · intro h
    have h1 : ((1 * (1000 * 60 * 60) : Int) : ℚ) < ((now - t : Int) : ℚ) := by
      push_cast; push_cast at h; linarith
    have h2 := Int.cast_lt.mp h1
    omega
  · intro h
    have h1 : ((60 * 60 * 1000 : Int) : ℚ) < ((now - t : Int) : ℚ) := Int.cast_lt.mpr h
    push_cast at h1 ⊢
    linarith

/-- One turn of the classification loop either leaves `videos` alone or pushes one
entry built from the item, and it pushes only for an item inside the closed window. -/
theorem classifyStep_cases (parse : String → Option Int) (now : Int)
    (channelId channelName : String) (videos : List LiveEntry) (item : Item) :
    classifyStep parse now (now + 24 * 60 * 60 * 1000) channelId channelName videos item
        = videos ∨
    (∃ status st,
        classifyStep parse now (now + 24 * 60 * 60 * 1000) channelId channelName videos item
          = videos ++ [mkLiveEntry channelId channelName item status st]) ∧
      LiveAccepted (· ≤ ·) parse now item := by
  unfold classifyStep
  simp only []
  split_ifs with h1 h2 h3 h4 h5
  · left; rfl
  · left; rfl
  · right
    refine ⟨⟨_, _, rfl⟩, ?_, Or.inl ?_⟩
    · simpa [actualEndTime] using h2
    · simpa [actualEndTime, actualStartTime] using h3
  · cases hd : newDate parse (item.liveStreamingDetails.bind (·.scheduledStartTime)) with
    | none => left; simp
    | some t =>
      simp only []
      split_ifs with h6 h7
      · left; rfl
      · left; rfl
      · right
        refine ⟨⟨_, _, rfl⟩, ?_, Or.inr ⟨h4.1, t, ?_, ?_, ?_⟩⟩
        · simpa [actualEndTime] using h2
        · simpa [scheduledStartTime] using hd
        · rw [hoursPassed_gt_one] at h6
          by_contra hc
          exact h6 ⟨by omega, by omega⟩
        · omega
  · left; rfl
  · left; rfl

/-- A property of entries that holds of what is already in `videos`, and of every entry
built from an accepted item, holds of everything the loop returns. -/
theorem classifyLoop_invariant (parse : String → Option Int) (now : Int)
    (channelId channelName : String) (P : LiveEntry → Prop) (items : List Item)
    (hstep : ∀ item ∈ items, ∀ status st, LiveAccepted (· ≤ ·) parse now item →
      P (mkLiveEntry channelId channelName item status st)) :
    ∀ acc : List LiveEntry, (∀ e ∈ acc, P e) →
      ∀ e ∈ items.foldl
        (classifyStep parse now (now + 24 * 60 * 60 * 1000) channelId channelName) acc,
        P e := by
  induction items with
  | nil => intro acc h e he; exact h e he
  | cons item rest ih =>
    intro acc hacc
    rw [List.foldl_cons]
    apply ih (fun i hi => hstep i (List.mem_cons_of_mem _ hi))
    rcases classifyStep_cases parse now channelId channelName acc item with
      h | ⟨⟨status, st, h⟩, hok⟩
    · rw [h]; exact hacc
    · rw [h]
      intro e he
      rcases List.mem_append.mp he with h1 | h1
      · exact hacc e h1
      · rw [List.mem_singleton.mp h1]
        exact hstep item (List.mem_cons_self _ _) status st hok

/-- The sample broadcast, fetched exactly one hour after its scheduled time, is
emitted as an upcoming entry. -/
theorem classifyLoop_sample_one_hour_late :
    classifyLoop sampleParse 1700003600000 "UCx" "Chapel" [sampleUpcoming]
      = [mkLiveEntry "UCx" "Chapel" sampleUpcoming "upcoming"
          (some "2023-11-14T22:13:20Z")] := by
  simp [classifyLoop, classifyStep, hoursPassed_gt_one, newDate, truthy, sampleParse,
    sampleUpcoming]

/-- C1, as amended: every entry the classification loop of `fetchChannelLivestreams`
emits was built from a fetched item that has no actual-end timestamp and that either
has tag `live` or an actual start without an actual end, or has tag `upcoming` with a
scheduled time that is a valid date `t` with `now - 1h ≤ t ≤ now + 24h` (the window is
closed at both ends). -/
theorem classifyLoop_emits_accepted (parse : String → Option Int) (now : Int)
    (channelId channelName : String) (items : List Item) (e : LiveEntry)
    (he : e ∈ classifyLoop parse now channelId channelName items) :
    ∃ item ∈ items, EmittedFrom channelId channelName item e ∧
      LiveAccepted (· ≤ ·) parse now item := by
  refine classifyLoop_invariant parse now channelId channelName
    (fun e => ∃ item ∈ items, EmittedFrom channelId channelName item e ∧
      LiveAccepted (· ≤ ·) parse now item) items ?_ [] (by simp) e he
  intro item hi status st hok
  exact ⟨item, hi, ⟨status, st, rfl⟩, hok⟩

/-- C1, witness: the sample broadcast fetched one hour after its scheduled time. -/
theorem classifyLoop_emits_accepted_witness :
    ∃ item ∈ [sampleUpcoming],
      EmittedFrom "UCx" "Chapel" item
        (mkLiveEntry "UCx" "Chapel" sampleUpcoming "upcoming" (some "2023-11-14T22:13:20Z")) ∧
      LiveAccepted (· ≤ ·) sampleParse 1700003600000 item :=
  classifyLoop_emits_accepted sampleParse 1700003600000 "UCx" "Chapel" [sampleUpcoming] _
    (by rw [classifyLoop_sample_one_hour_late]; exact List.mem_singleton.mpr rfl)

/-- C1, counterexample: with the window open at its lower end the claim fails.  The
sample broadcast fetched exactly one hour after its scheduled time is emitted, and its
scheduled time is not later than `now - 1h`. -/
theorem classifyLoop_open_window_fails :
    ¬ ∀ e ∈ classifyLoop sampleParse 1700003600000 "UCx" "Chapel" [sampleUpcoming],
      ∃ item ∈ [sampleUpcoming], EmittedFrom "UCx" "Chapel" item e ∧
        LiveAccepted (· < ·) sampleParse 1700003600000 item := by
  rw [classifyLoop_sample_one_hour_late]
  intro h
  obtain ⟨item, hi, -, hacc⟩ := h _ (List.mem_singleton.mpr rfl)
  rw [List.mem_singleton.mp hi] at hacc
  simp [LiveAccepted, sampleUpcoming, actualStartTime, actualEndTime, scheduledStartTime,
    truthy, newDate, sampleParse] at hacc

/-- One turn of the classification loop on an item with tag `upcoming`, no actual start,
no actual end and a scheduled time that is a valid date `t`: the turn pushes the upcoming
entry exactly when `t` is not more than one hour in the past and not more than 24 hours
in the future of the fetch time, and otherwise leaves `videos` alone. -/
theorem classifyStep_upcoming_iff (parse : String → Option Int) (now : Int)
    (channelId channelName : String) (videos : List LiveEntry) (item : Item) (t : Int)
    (htag : item.snippet.liveBroadcastContent = "upcoming")
    (hstart : truthy (actualStartTime item) = false)
    (hend : truthy (actualEndTime item) = false)
    (hdate : newDate parse (scheduledStartTime item) = some t) :
    (classifyStep parse now (now + 24 * 60 * 60 * 1000) channelId channelName videos item
        = videos ++ [mkLiveEntry channelId channelName item "upcoming" (scheduledStartTime item)]
      ↔ (now - t ≤ 60 * 60 * 1000 ∧ t ≤ now + 24 * 60 * 60 * 1000)) ∧
    (classifyStep parse now (now + 24 * 60 * 60 * 1000) channelId channelName videos item
        = videos
      ↔ ¬ (now - t ≤ 60 * 60 * 1000 ∧ t ≤ now + 24 * 60 * 60 * 1000)) ∧
    (t = now + 25 * 60 * 60 * 1000 →
      classifyStep parse now (now + 24 * 60 * 60 * 1000) channelId channelName videos item
        = videos) ∧
    (t = now + 23 * 60 * 60 * 1000 →
      classifyStep parse now (now + 24 * 60 * 60 * 1000) channelId channelName videos item
        = videos ++ [mkLiveEntry channelId channelName item "upcoming" (scheduledStartTime item)]) ∧
    (t = now - 90 * 60 * 1000 →
      classifyStep parse now (now + 24 * 60 * 60 * 1000) channelId channelName videos item
        = videos) ∧
    (t = now - 30 * 60 * 1000 →
      classifyStep parse now (now + 24 * 60 * 60 * 1000) channelId channelName videos item
        = videos ++ [mkLiveEntry channelId channelName item "upcoming" (scheduledStartTime item)]) := by
  have hsched : truthy (scheduledStartTime item) = true := by
    cases hs : scheduledStartTime item with
    | none => rw [hs] at hdate; simp [newDate] at hdate
    | some s =>
      rw [hs] at hdate
      by_cases he : s = ""
      · simp [newDate, he] at hdate
      · simp [truthy, he]
  have key : classifyStep parse now (now + 24 * 60 * 60 * 1000) channelId channelName videos item
      = if now - t ≤ 60 * 60 * 1000 ∧ t ≤ now + 24 * 60 * 60 * 1000
        then videos ++ [mkLiveEntry channelId channelName item "upcoming" (scheduledStartTime item)]
        else videos := by
    unfold classifyStep
    simp only [actualStartTime, actualEndTime, scheduledStartTime] at hstart hend hsched hdate ⊢
    simp only [htag, hstart, hend, hsched, hdate, hoursPassed_gt_one]
    simp only [gt_iff_lt, reduceCtorEq, and_false, false_and, if_false, true_and, and_true,
      if_true, or_false, false_or, Bool.false_eq_true, Bool.true_eq_false, and_self]
    have n1 : ¬ (("upcoming" : String) = "none") := by decide
    have n2 : ¬ (("upcoming" : String) = "live") := by decide
    simp only [n1, n2, false_and, if_false]
    split_ifs <;> first | rfl | (exfalso; omega)
  rw [key]
  refine ⟨?_, ?_, ?_, ?_, ?_, ?_⟩
  · by_cases h : now - t ≤ 60 * 60 * 1000 ∧ t ≤ now + 24 * 60 * 60 * 1000
    · simp [h]
    · simp [h]
  · by_cases h : now - t ≤ 60 * 60 * 1000 ∧ t ≤ now + 24 * 60 * 60 * 1000
    · simp [h]
    · simp [h]
  · intro ht; rw [if_neg (by omega)]
  · intro ht; rw [if_pos (by omega)]
  · intro ht; rw [if_neg (by omega)]
  · intro ht; rw [if_pos (by omega)]


/-! ## Theorems: the loop of the recency script -/

/-- A property of entries that holds of what is already in `videos`, and of the entry
of every item the loop accepts, holds of everything the loop returns. -/
theorem Recent.videosLoop_invariant (parse : String → Option Int) (now : Int)
    (channel : Recent.Channel) (P : Recent.Entry → Prop) (items : List Item)
    (hstep : ∀ item ∈ items, item.snippet.liveBroadcastContent = "none" →
      Recent.AgeNotBeyond parse now channel.maxDays item → P (Recent.mkEntry channel item)) :
    ∀ acc : List Recent.Entry, (∀ e ∈ acc, P e) →
      ∀ e ∈ Recent.videosLoop parse now (channel.maxDays * 24 * 60 * 60 * 1000) channel
        items acc, P e := by
  induction items with
  | nil => intro acc h e he; exact h e (by simpa [Recent.videosLoop] using he)
  | cons item rest ih =>
    intro acc hacc
    have ih1 := ih (fun i hi => hstep i (List.mem_cons_of_mem _ hi))
    have hP : numGt (dateDiff (some now) (newDate parse (some item.snippet.publishedAt)))
          (some (channel.maxDays * 24 * 60 * 60 * 1000)) ≠ true →
        ¬ item.snippet.liveBroadcastContent ≠ "none" → P (Recent.mkEntry channel item) := by
      intro h1 h2
      apply hstep item (List.mem_cons_self _ _) (by simpa using h2)
      intro t ht
      rw [ht] at h1
      simp [dateDiff, numGt] at h1
      omega
    unfold Recent.videosLoop
    simp only []
    split_ifs with h1 h2 h3
    · exact ih1 acc hacc
    · exact ih1 acc hacc
    · intro e he
      rcases List.mem_append.mp he with h | h
      · exact hacc e h
      · rw [List.mem_singleton.mp h]; exact hP h1 h2
    · apply ih1
      intro e he
      rcases List.mem_append.mp he with h | h
      · exact hacc e h
      · rw [List.mem_singleton.mp h]; exact hP h1 h2

/-- The loop never returns more entries than the larger of 1 and `maxVideos`, when it
starts below that number. -/
theorem Recent.videosLoop_length (parse : String → Option Int) (now maxAgeMs : Int)
    (channel : Recent.Channel) (items : List Item) :
    ∀ acc : List Recent.Entry, (acc.length : Int) < max 1 channel.maxVideos →
      ((Recent.videosLoop parse now maxAgeMs channel items acc).length : Int)
        ≤ max 1 channel.maxVideos := by
  induction items with
  | nil => intro acc h; simp only [Recent.videosLoop]; omega
  | cons item rest ih =>
    intro acc hacc
    unfold Recent.videosLoop
    simp only []
    split_ifs with h1 h2 h3
    · exact ih acc hacc
    · exact ih acc hacc
    · simp only [List.length_append, List.length_singleton]; push_cast; omega
    · apply ih
      simp only [List.length_append, List.length_singleton] at h3 ⊢
      push_cast at h3 ⊢
      omega

/-- What `fetchChannelVideos` returns is empty or is the result of the loop on the
items of a video-details answer, at the fetch time of the call. -/
theorem Recent.fetchChannelVideos_cases (parse : String → Option Int) (w : ChannelWorld)
    (channel : Recent.Channel) :
    Recent.fetchChannelVideos parse w channel = [] ∨
    ∃ items, Recent.fetchChannelVideos parse w channel
      = Recent.filterVideos parse w.now channel items := by
  unfold Recent.fetchChannelVideos Recent.fetchChannelVideosTry
  cases w.playlist (Recent.uploadsPlaylistId channel.channelId) with
  | error e => left; rfl
  | ok playlistData =>
    simp only []
    split_ifs with h1
    · left; rfl
    · cases playlistData.items with
      | none => left; rfl
      | some ids =>
        cases ids with
        | nil => left; rfl
        | cons id ids =>
          simp only []
          cases w.videos (joinIds (id :: ids)) with
          | error e => left; rfl
          | ok videosData =>
            simp only []
            cases videosData.error with
            | some err => left; rfl
            | none => right; exact ⟨_, rfl⟩

/-! ## Theorems: the CSV loader -/

/-- The loop of `parseCSV` (live-status script) from row `i` on appends what each
remaining row contributes, in row order. -/
theorem parseCSVLoop_eq_filterMap (lines : List (List Char)) :
    ∀ (n i : Nat) (channels : List Channel), lines.length - i = n →
      parseCSVLoop lines i channels = channels ++ (lines.drop i).filterMap rowRecord := by
  intro n
  induction n with
  | zero =>
    intro i channels h
    unfold parseCSVLoop
    have hi : ¬ i < lines.length := by omega
    rw [dif_neg hi, List.drop_of_length_le (by omega)]
    simp
  | succ n ih =>
    intro i channels h
    have hi : i < lines.length := by omega
    unfold parseCSVLoop
    rw [dif_pos hi]
    have hd : lines.drop i = lines.get ⟨i, hi⟩ :: lines.drop (i + 1) := by
      simp
    rw [hd]
    simp only []
    by_cases h1 : jsTrim (lines.get ⟨i, hi⟩) = []
    · have hr : rowRecord (lines.get ⟨i, hi⟩) = none := by
        unfold rowRecord; rw [if_pos h1]
      rw [if_pos h1, ih (i + 1) channels (by omega), List.filterMap_cons_none hr]
    · rw [if_neg h1]
      by_cases h2 : (parseCSVLine (jsTrim (lines.get ⟨i, hi⟩))).length ≥ 3
      · have h3 : ¬ (parseCSVLine (jsTrim (lines.get ⟨i, hi⟩))).length < 3 := by omega
        have hr := (show rowRecord (lines.get ⟨i, hi⟩) = some _ by
          unfold rowRecord; rw [if_neg h1, if_neg h3])
        rw [if_pos h2, ih (i + 1) _ (by omega), List.filterMap_cons_some hr,
          List.append_assoc, List.singleton_append]
      · have h3 : (parseCSVLine (jsTrim (lines.get ⟨i, hi⟩))).length < 3 := by omega
        have hr : rowRecord (lines.get ⟨i, hi⟩) = none := by
          unfold rowRecord; rw [if_neg h1, if_pos h3]
        rw [if_neg h2, ih (i + 1) channels (by omega), List.filterMap_cons_none hr]

/-- The loop of `parseCSV` (recency script) from row `i` on appends what each
remaining row contributes, in row order. -/
theorem Recent.recentCSVLoop_eq_filterMap (lines : List (List Char)) :
    ∀ (n i : Nat) (channels : List Recent.Channel), lines.length - i = n →
      Recent.parseCSVLoop lines i channels
        = channels ++ (lines.drop i).filterMap Recent.rowRecord := by
  intro n
  induction n with
  | zero =>
    intro i channels h
    unfold Recent.parseCSVLoop
    have hi : ¬ i < lines.length := by omega
    rw [dif_neg hi, List.drop_of_length_le (by omega)]
    simp
  | succ n ih =>
    intro i channels h
    have hi : i < lines.length := by omega
    unfold Recent.parseCSVLoop
    rw [dif_pos hi]
    have hd : lines.drop i = lines.get ⟨i, hi⟩ :: lines.drop (i + 1) := by
      simp
    rw [hd]
    simp only []
    by_cases h1 : jsTrim (lines.get ⟨i, hi⟩) = []
    · have hr : Recent.rowRecord (lines.get ⟨i, hi⟩) = none := by
        unfold Recent.rowRecord; rw [if_pos h1]
      rw [if_pos h1, ih (i + 1) channels (by omega), List.filterMap_cons_none hr]
    · rw [if_neg h1]
      by_cases h2 : (Recent.parseCSVLine (jsTrim (lines.get ⟨i, hi⟩))).length ≥ 4
      · have h3 : ¬ (Recent.parseCSVLine (jsTrim (lines.get ⟨i, hi⟩))).length < 4 := by omega
        have hr := (show Recent.rowRecord (lines.get ⟨i, hi⟩) = some _ by
          unfold Recent.rowRecord; rw [if_neg h1, if_neg h3])
        rw [if_pos h2, ih (i + 1) _ (by omega), List.filterMap_cons_some hr,
          List.append_assoc, List.singleton_append]
      · have h3 : (Recent.parseCSVLine (jsTrim (lines.get ⟨i, hi⟩))).length < 4 := by omega
        have hr : Recent.rowRecord (lines.get ⟨i, hi⟩) = none := by
          unfold Recent.rowRecord; rw [if_neg h1, if_pos h3]
        rw [if_neg h2, ih (i + 1) channels (by omega), List.filterMap_cons_none hr]

/-- C9: in both scripts `parseCSV` returns, in row order, what the rows after the
header row contribute: nothing for a blank row, nothing for a row that `parseCSVLine`
splits into fewer than the required number of fields (3, respectively 4), and exactly one
record for every other row.  The header row contributes nothing. -/
theorem parseCSV_rows (csvText : List Char) :
    parseCSV csvText = ((splitLines csvText).drop 1).filterMap rowRecord ∧
    Recent.parseCSV csvText = ((splitLines csvText).drop 1).filterMap Recent.rowRecord := by
  constructor
  · unfold parseCSV
    rw [parseCSVLoop_eq_filterMap _ _ 1 [] rfl]; simp
  · unfold Recent.parseCSV
    rw [Recent.recentCSVLoop_eq_filterMap _ _ 1 [] rfl]; simp

/-- The sample sheet is read as one record whose `maxVideos` is `-3`. -/
theorem Recent.parseCSV_sampleSheet :
    Recent.parseCSV sampleSheet
      = [{ channelId := "UCabc", maxDays := 7, maxVideos := -3, description := "Sermons" }] := by
  unfold Recent.parseCSV
  rw [Recent.recentCSVLoop_eq_filterMap _ _ 1 [] rfl]
  decide

/-- Dropping leading white space removes no comma. -/
theorem count_comma_dropWhile (s : List Char) :
    (s.dropWhile isJsWhiteSpace).count ',' = s.count ',' := by
  induction s with
  | nil => rfl
  | cons c cs ih =>
    rw [List.dropWhile_cons]
    split_ifs with h
    · rw [ih, List.count_cons_of_ne]
      intro hc; rw [← hc] at h; revert h; decide
    · rfl

/-- Trimming removes no comma. -/
theorem count_comma_jsTrim (s : List Char) : (jsTrim s).count ',' = s.count ',' := by
  unfold jsTrim trimEnd
  rw [List.count_reverse, count_comma_dropWhile, List.count_reverse, count_comma_dropWhile]

/-- The loop of `parseCSVLine`, from any state: the values pushed are as many as the
commas outside quote spans met by the scan, and the commas kept in the values and in
`current` are the commas inside quote spans met by the scan. -/
theorem foldl_step_counts (line : List Char) :
    ∀ st : LineState,
      (line.foldl parseCSVLineStep st).values.length
          = st.values.length + commasFrom false st.inQuotes line ∧
      commasInFields (line.foldl parseCSVLineStep st).values
          + (line.foldl parseCSVLineStep st).current.count ','
        = commasInFields st.values + st.current.count ',' + commasFrom true st.inQuotes line := by
  induction line with
  | nil => intro st; simp [commasFrom]
  | cons c cs ih =>
    intro st
    rw [List.foldl_cons]
    obtain ⟨ih1, ih2⟩ := ih (parseCSVLineStep st c)
    rw [ih1, ih2]
    unfold parseCSVLineStep
    by_cases hq : c = '"'
    · simp [hq, commasFrom]
    · by_cases hc : c = ','
      · cases hin : st.inQuotes
        · simp [hq, hc, hin, commasFrom, commasInFields, count_comma_jsTrim]
          omega
        · simp [hq, hc, hin, commasFrom, commasInFields]
          omega
      · simp [hq, hc, commasFrom, commasInFields, List.count_cons_of_ne (Ne.symm hc)]

/-- The parity of a successor. -/
theorem succ_mod_two_beq (n : Nat) : ((n + 1) % 2 == 1) = !(n % 2 == 1) := by
  rcases Nat.mod_two_eq_zero_or_one n with h | h <;> simp [Nat.add_mod, h]

/-- The comma test at index `i + 1` is the comma test of the tail at index `i`, with
the quote state after the first character. -/
theorem commaAtFrom_succ (q : Bool) (c : Char) (cs : List Char) (inside : Bool) (i : Nat) :
    commaAtFrom q (c :: cs) inside (i + 1)
      = commaAtFrom (if c = '"' then !q else q) cs inside i := by
  unfold commaAtFrom
  by_cases hq : c = '"'
  · subst hq
    simp only [List.get?_cons_succ, List.take_succ_cons, List.count_cons_self, if_true,
      succ_mod_two_beq]
    cases q <;> simp
  · simp only [List.get?_cons_succ, List.take_succ_cons, List.count_cons_of_ne (Ne.symm hq),
      if_neg hq]

/-- The scan on a line with a first character. -/
theorem commasFrom_cons (inside q : Bool) (c : Char) (cs : List Char) :
    commasFrom inside q (c :: cs)
      = if c = '"' then commasFrom inside (!q) cs
        else if c = ',' ∧ q = inside then 1 + commasFrom inside q cs
        else commasFrom inside q cs := by
  rw [commasFrom]

/-- The scan counts the indices that pass the comma test. -/
theorem commasFrom_eq_countP (inside : Bool) (line : List Char) :
    ∀ q : Bool, commasFrom inside q line
      = (List.range line.length).countP (commaAtFrom q line inside) := by
  induction line with
  | nil => intro q; simp [commasFrom]
  | cons c cs ih =>
    intro q
    rw [List.length_cons, List.range_succ_eq_map, List.countP_cons, List.countP_map]
    have hfun : (commaAtFrom q (c :: cs) inside ∘ Nat.succ)
        = commaAtFrom (if c = '"' then !q else q) cs inside := by
      funext i; exact commaAtFrom_succ q c cs inside i
    rw [hfun, ← ih, commasFrom_cons]
    by_cases hq : c = '"'
    · subst hq
      simp [commaAtFrom]
    · by_cases hc : c = ','
      · subst hc
        by_cases hqi : q = inside
        · simp [commaAtFrom, hqi]; omega
        · simp [commaAtFrom, hqi]
      · simp [commaAtFrom, hq, hc]

/-- A scan that starts outside a quote span uses the comma test of the line. -/
theorem commaAtFrom_false (line : List Char) (inside : Bool) :
    commaAtFrom false line inside = commaAt line inside := by
  funext i; simp [commaAtFrom, commaAt]

/-- The fields returned by `parseCSVLine` are one more than the commas outside quote
spans, and the commas in the fields are the commas inside quote spans. -/
theorem parseCSVLine_counts (line : List Char) :
    (parseCSVLine line).length = commasOutsideQuotes line + 1 ∧
    commasInFields (parseCSVLine line) = commasInsideQuotes line := by
  obtain ⟨h1, h2⟩ := foldl_step_counts line { values := [], current := [], inQuotes := false }
  unfold parseCSVLine commasOutsideQuotes commasInsideQuotes
  simp only [List.length_append, List.length_singleton]
  rw [h1, commasFrom_eq_countP, commaAtFrom_false]
  refine ⟨by simp, ?_⟩
  rw [← commaAtFrom_false, ← commasFrom_eq_countP]
  simp [commasInFields] at h2 ⊢
  rw [count_comma_jsTrim]
  simpa [commasInFields] using h2

/-- C7: `parseCSVLine` (in both scripts) splits a line exactly at the commas outside
double-quote spans: the fields are one more than those commas, every comma inside a
quote span is kept in a field and no other comma is, and the sample line with a quoted
first field yields the three fields `Channel, Official`, `https://x` and `UC123`. -/
theorem parseCSVLine_splits_outside_quotes (line : List Char) :
    ((parseCSVLine line).length = commasOutsideQuotes line + 1 ∧
      commasInFields (parseCSVLine line) = commasInsideQuotes line) ∧
    ((Recent.parseCSVLine line).length = commasOutsideQuotes line + 1 ∧
      commasInFields (Recent.parseCSVLine line) = commasInsideQuotes line) ∧
    parseCSVLine sampleLine
      = ["Channel, Official".toList, "https://x".toList, "UC123".toList] ∧
    Recent.parseCSVLine sampleLine
      = ["Channel, Official".toList, "https://x".toList, "UC123".toList] :=
  ⟨parseCSVLine_counts line, parseCSVLine_counts line, by decide, by decide⟩

/-! ## Theorems: the cap on the entries of a channel -/

/-- C4, as amended: for every channel record (those produced by `parseCSV` included)
and every list of fetched items, the number of entries returned by the loop of
`fetchChannelVideos`, and by `fetchChannelVideos` itself, never exceeds the larger of 1
and the configured `maxVideos`; so it never exceeds `maxVideos` when `maxVideos ≥ 1`. -/
theorem Recent.fetchChannelVideos_length_le (parse : String → Option Int) (now : Int)
    (w : ChannelWorld) (channel : Recent.Channel) (items : List Item) :
    ((Recent.filterVideos parse now channel items).length : Int) ≤ max 1 channel.maxVideos ∧
    ((Recent.fetchChannelVideos parse w channel).length : Int) ≤ max 1 channel.maxVideos := by
  refine ⟨Recent.videosLoop_length parse now _ channel items [] (by simp), ?_⟩
  rcases Recent.fetchChannelVideos_cases parse w channel with h | ⟨fetched, h⟩
  · rw [h]; simp
  · rw [h]; exact Recent.videosLoop_length parse w.now _ channel fetched [] (by simp)

/-- C4, counterexample: the sample sheet gives a channel record with `maxVideos = -3`,
and for it the loop returns one entry for one accepted item, more than `maxVideos`. -/
theorem Recent.fetchChannelVideos_exceeds_negative_maxVideos :
    ¬ ∀ channel ∈ Recent.parseCSV sampleSheet, ∀ items : List Item,
      ((Recent.filterVideos sampleParse 1700090000000 channel items).length : Int)
        ≤ channel.maxVideos := by
  rw [Recent.parseCSV_sampleSheet]
  intro h
  have h1 := h _ (List.mem_singleton.mpr rfl) [sampleVideo]
  revert h1
  decide

/-! ## Theorems: the sorters -/

/-- The comparator puts a live entry before an entry that is not live. -/
theorem compareLive_live_other (parse : String → Option Int) (rest : Option Int)
    (a b : LiveEntry) (ha : a.status = "live") (hb : b.status ≠ "live") :
    compareLive parse rest a b = some (-1) := by
  unfold compareLive; rw [if_pos ⟨ha, hb⟩]

/-- The comparator puts an entry that is not live after a live entry. -/
theorem compareLive_other_live (parse : String → Option Int) (rest : Option Int)
    (a b : LiveEntry) (ha : a.status ≠ "live") (hb : b.status = "live") :
    compareLive parse rest a b = some 1 := by
  unfold compareLive
  rw [if_neg (fun h => ha h.1), if_pos ⟨ha, hb⟩]

/-- Inserting an entry into a list with its live entries first keeps the live entries
first. -/
theorem orderedInsert_liveFirst (parse : String → Option Int) (rest : Option Int)
    (x : LiveEntry) (l : List LiveEntry) (h : LiveFirst l) :
    LiveFirst (l.orderedInsert (fun a b => (compareLive parse rest a b).getD 0 ≤ 0) x) := by
  induction l with
  | nil => simp [LiveFirst]
  | cons y ys ih =>
    unfold LiveFirst at h ih ⊢
    rw [List.pairwise_cons] at h
    rw [List.orderedInsert]
    split_ifs with hr
    · rw [List.pairwise_cons]
      refine ⟨?_, List.pairwise_cons.mpr h⟩
      intro z hz ⟨hx, hzl⟩
      have hy : y.status ≠ "live" := by
        intro hy
        rw [compareLive_other_live parse rest x y hx hy] at hr
        simp at hr
      rcases List.mem_cons.mp hz with hzy | hzy
      · exact hy (hzy ▸ hzl)
      · exact h.1 z hzy ⟨hy, hzl⟩
    · rw [List.pairwise_cons]
      refine ⟨?_, ih h.2⟩
      intro z hz ⟨hy, hzl⟩
      rcases (List.mem_orderedInsert _).mp hz with hzx | hzy
      · apply hr
        rw [compareLive_live_other parse rest x y (hzx ▸ hzl) hy]
        simp
      · exact h.1 z hzy ⟨hy, hzl⟩

/-- C5: after sorting with the comparator of `main`, whatever the last `return` of the
comparator yields, no entry whose status is not `live` stands before an entry whose
status is `live`; this holds for every list of entries, those produced by
`fetchChannelLivestreams` among them. -/
theorem sortLive_liveFirst (parse : String → Option Int) (rest : Option Int)
    (allVideos : List LiveEntry) : LiveFirst (sortLive parse rest allVideos) := by
  unfold sortLive arraySort
  induction allVideos with
  | nil => simp [LiveFirst]
  | cons x xs ih =>
    rw [List.insertionSort]
    exact orderedInsert_liveFirst parse rest x _ ih

/-- Inserting an entry with a valid published time into a newest-first list of such
entries keeps it newest first. -/
theorem Recent.orderedInsert_newestFirst (parse : String → Option Int)
    (x : Recent.Entry) (hx : (newDate parse (some x.publishedAt)).isSome = true)
    (l : List Recent.Entry)
    (hl : ∀ e ∈ l, (newDate parse (some e.publishedAt)).isSome = true)
    (h : Recent.NewestFirst parse l) :
    Recent.NewestFirst parse
      (l.orderedInsert (fun a b => (Recent.compareRecent parse a b).getD 0 ≤ 0) x) := by
  induction l with
  | nil => simp [Recent.NewestFirst]
  | cons y ys ih =>
    unfold Recent.NewestFirst at h ih ⊢
    rw [List.pairwise_cons] at h
    obtain ⟨tx, htx⟩ := Option.isSome_iff_exists.mp hx
    obtain ⟨ty, hty⟩ := Option.isSome_iff_exists.mp (hl y (List.mem_cons_self _ _))
    have hcmp : (Recent.compareRecent parse x y).getD 0 = ty - tx := by
      simp [Recent.compareRecent, htx, hty, dateDiff]
    rw [List.orderedInsert]
    split_ifs with hr
    · rw [List.pairwise_cons]
      refine ⟨?_, List.pairwise_cons.mpr h⟩
      intro z hz ta tb hta htb
      have e1 : tx = ta := Option.some.inj (htx.symm.trans hta)
      rw [hcmp] at hr
      rcases List.mem_cons.mp hz with hzy | hzy
      · have e2 : ty = tb := Option.some.inj (hty.symm.trans (hzy ▸ htb))
        omega
      · have e2 := h.1 z hzy ty tb hty htb
        omega
    · rw [List.pairwise_cons]
      refine ⟨?_, ih (fun e he => hl e (List.mem_cons_of_mem _ he)) h.2⟩
      intro z hz ta tb hta htb
      have e1 : ty = ta := Option.some.inj (hty.symm.trans hta)
      rw [hcmp] at hr
      rcases (List.mem_orderedInsert _).mp hz with hzx | hzy
      · have e2 : tx = tb := Option.some.inj (htx.symm.trans (hzx ▸ htb))
        omega
      · exact h.1 z hzy ta tb hta htb

/-- C6: for every list of entries whose published times are valid dates, as the platform
sends them, the list sorted with the comparator of `main` is non-increasing in published
time (newest first). -/
theorem Recent.sortRecent_newestFirst (parse : String → Option Int)
    (allVideos : List Recent.Entry)
    (hvalid : ∀ e ∈ allVideos, (newDate parse (some e.publishedAt)).isSome = true) :
    Recent.NewestFirst parse (Recent.sortRecent parse allVideos) := by
  unfold Recent.sortRecent arraySort
  induction allVideos with
  | nil => simp [Recent.NewestFirst]
  | cons x xs ih =>
    rw [List.insertionSort]
    have ih1 := ih (fun e he => hvalid e (List.mem_cons_of_mem _ he))
    refine Recent.orderedInsert_newestFirst parse x (hvalid x (List.mem_cons_self _ _)) _ ?_ ih1
    intro e he
    exact hvalid e (List.mem_cons_of_mem _ ((List.perm_insertionSort _ xs).subset he))

/-- C6, witness: the entries of the two dated sample videos. -/
theorem Recent.sortRecent_newestFirst_witness :
    Recent.NewestFirst sampleParse
      (Recent.sortRecent sampleParse
        [Recent.mkEntry sampleChannel sampleVideo, Recent.mkEntry sampleChannel sampleNewer]) :=
  Recent.sortRecent_newestFirst sampleParse
    [Recent.mkEntry sampleChannel sampleVideo, Recent.mkEntry sampleChannel sampleNewer]
    (by decide)

/-! ## Theorems: the error paths -/

/-- An error payload makes `fetchChannelLivestreams` return the empty list. -/
theorem fetchChannelLivestreams_error (parse : String → Option Int) (w : ChannelWorld)
    (channelId channelName : String) (h : ReportsError w channelId) :
    fetchChannelLivestreams parse w channelId channelName = [] := by
  unfold fetchChannelLivestreams fetchChannelLivestreamsTry
  rcases h with ⟨pd, h1, h2⟩ | ⟨pd, id, ids, vd, h1, h2, h3, h4, h5⟩
  · simp [h1, h2]
  · obtain ⟨err, herr⟩ := Option.isSome_iff_exists.mp h5
    simp [h1, h2, h3, h4, herr]

/-- The per-channel loop appends the results of the channels in turn. -/
theorem foldl_collect (parse : String → Option Int) (runs : List (Channel × ChannelWorld)) :
    ∀ acc : List LiveEntry,
      runs.foldl (fun allVideos run =>
          allVideos ++ fetchChannelLivestreams parse run.2 run.1.channelId run.1.name) acc
        = acc ++ runs.flatMap
            (fun run => fetchChannelLivestreams parse run.2 run.1.channelId run.1.name) := by
  induction runs with
  | nil => intro acc; simp
  | cons r rs ih => intro acc; rw [List.foldl_cons, ih]; simp

/-- C8: when the platform reports an error payload for a channel, on the playlist call
or on the video-details call, `fetchChannelLivestreams` returns the empty list for it
(it returns a list, it never raises), and the per-channel loop of `main` goes on with
the later channels: the aggregated list is the concatenation of the results of the
other channels. -/
theorem collect_skips_error (parse : String → Option Int)
    (before after : List (Channel × ChannelWorld)) (channel : Channel) (w : ChannelWorld)
    (h : ReportsError w channel.channelId) :
    fetchChannelLivestreams parse w channel.channelId channel.name = [] ∧
    collectLivestreams parse (before ++ (channel, w) :: after)
      = (before ++ after).flatMap
          (fun run => fetchChannelLivestreams parse run.2 run.1.channelId run.1.name) := by
  have h0 := fetchChannelLivestreams_error parse w channel.channelId channel.name h
  refine ⟨h0, ?_⟩
  unfold collectLivestreams
  rw [foldl_collect]
  simp [h0]

/-- C8, witness: the sample channel, for which the playlist call answers with an error
payload, between no other channels. -/
theorem collect_skips_error_witness :
    ReportsError sampleErrorWorld sampleLiveChannel.channelId ∧
    fetchChannelLivestreams sampleParse sampleErrorWorld sampleLiveChannel.channelId
      sampleLiveChannel.name = [] ∧
    collectLivestreams sampleParse ([] ++ (sampleLiveChannel, sampleErrorWorld) :: [])
      = ([] ++ []).flatMap
          (fun run : Channel × ChannelWorld =>
            fetchChannelLivestreams sampleParse run.2 run.1.channelId run.1.name) :=
  ⟨Or.inl ⟨_, rfl, rfl⟩,
    collect_skips_error sampleParse [] [] sampleLiveChannel sampleErrorWorld
      (Or.inl ⟨_, rfl, rfl⟩)⟩

/-- C10, as amended: when the spreadsheet endpoint answers with a non-OK response,
`fetchChannelsFromSheet` raises, `main` catches the failure and still writes the output
file, once, with an empty list of videos (after creating the data directory when it is
absent); the prior output is overwritten. -/
theorem Recent.main_sheet_failure (parse : String → Option Int) (w : Recent.World)
    (response : SheetResponse) (hkey : truthy w.apiKey = true)
    (hsheet : w.sheet = .ok response) (hok : response.ok = false) :
    Recent.fetchChannelsFromSheet w = .error "Failed to fetch from Google Sheets" ∧
    Recent.main parse w
      = .ok ((if w.dataDirExists = false then [Recent.FsCall.mkdirSync] else []) ++
          [Recent.FsCall.writeFileSync { lastUpdated := w.isoTime, videos := [] }]) := by
  have h1 : Recent.fetchChannelsFromSheet w = .error "Failed to fetch from Google Sheets" := by
    unfold Recent.fetchChannelsFromSheet; rw [hsheet]; simp [hok]
  refine ⟨h1, ?_⟩
  unfold Recent.main Recent.mainTry
  rw [h1]
  simp [hkey]

/-- The sample run with a non-OK spreadsheet answer writes a document without videos. -/
theorem Recent.main_failingSheet :
    Recent.main sampleParse failingSheetWorld
      = .ok [Recent.FsCall.writeFileSync { lastUpdated := "2023-11-14T22:13:20.000Z", videos := [] }] := by
  rfl

/-- C10, counterexample: in the sample run the spreadsheet endpoint answers with a
non-OK response, `fetchChannelsFromSheet` raises, and `main` writes the output file all
the same. -/
theorem Recent.main_writes_after_failure :
    Recent.fetchChannelsFromSheet failingSheetWorld = .error "Failed to fetch from Google Sheets" ∧
    ¬ Recent.WritesNothing (Recent.main sampleParse failingSheetWorld) := by
  refine ⟨rfl, ?_⟩
  rw [Recent.main_failingSheet]
  intro h
  exact h _ (List.mem_singleton.mpr rfl)

/-- C10, witness: the sample run with a non-OK spreadsheet answer. -/
theorem Recent.main_sheet_failure_witness :
    Recent.fetchChannelsFromSheet failingSheetWorld
        = .error "Failed to fetch from Google Sheets" ∧
    Recent.main sampleParse failingSheetWorld
      = .ok ((if failingSheetWorld.dataDirExists = false then [Recent.FsCall.mkdirSync]
              else []) ++
          [Recent.FsCall.writeFileSync
            { lastUpdated := failingSheetWorld.isoTime, videos := [] }]) :=
  Recent.main_sheet_failure sampleParse failingSheetWorld { ok := false, text := [] }
    rfl rfl rfl


/-! ## Theorems: live items, the playlist identifier, the two splitters -/

/-- One turn of the classification loop: an item without an actual-end timestamp that has
tag `live` or an actual-start timestamp gets one entry with status `live` and scheduled
time `null`, and an item with an actual-end timestamp leaves `videos` alone. -/
theorem classifyStep_live_or_ended (parse : String → Option Int) (now next24Hours : Int)
    (channelId channelName : String) (videos : List LiveEntry) (item : Item) :
    (truthy (actualEndTime item) = false →
      (item.snippet.liveBroadcastContent = "live" ∨ truthy (actualStartTime item) = true) →
      classifyStep parse now next24Hours channelId channelName videos item
        = videos ++ [mkLiveEntry channelId channelName item "live" none] ∧
      (mkLiveEntry channelId channelName item "live" none).status = "live" ∧
      (mkLiveEntry channelId channelName item "live" none).scheduledTime = none) ∧
    (truthy (actualEndTime item) = true →
      classifyStep parse now next24Hours channelId channelName videos item = videos) := by
  constructor
  · intro hend hlive
    refine ⟨?_, rfl, rfl⟩
    unfold classifyStep
    simp only [actualEndTime, actualStartTime] at hend hlive
    have h1 : ¬ (item.snippet.liveBroadcastContent = "none" ∧ item.liveStreamingDetails = none) := by
      rintro ⟨h1, h2⟩
      rcases hlive with h | h
      · rw [h1] at h; revert h; decide
      · rw [h2] at h; simp [truthy] at h
    simp only []
    rw [if_neg h1, hend]
    simp only [Bool.false_eq_true, if_false, and_true]
    rw [if_pos hlive]
  · intro hend
    unfold classifyStep
    simp only [actualEndTime] at hend
    simp only []
    split_ifs with h1
    · rfl
    · rfl

/-- The code units of a character are at least one. -/
theorem length_charUnits_pos (c : Char) : 0 < (charUnits c).length := by
  unfold charUnits; split_ifs <;> simp

/-- C12: for a channel identifier of at least 2 code units, the uploads playlist
identifier, a function of the channel identifier alone, has the same length, starts
with `UU`, agrees with the channel identifier from the third code unit on, and is the
same in both scripts. -/
theorem uploadsPlaylistId_shape (channelId : String) (h : 2 ≤ (utf16 channelId).length) :
    (uploadsPlaylistId channelId).length = (utf16 channelId).length ∧
    (uploadsPlaylistId channelId).take 2 = utf16 "UU" ∧
    (∀ i, 2 ≤ i → (uploadsPlaylistId channelId).get? i = (utf16 channelId).get? i) ∧
    Recent.uploadsPlaylistId channelId = uploadsPlaylistId channelId := by
  have hUU : utf16 "UU" = [85, 85] := by decide
  unfold uploadsPlaylistId Recent.uploadsPlaylistId
  rw [hUU]
  refine ⟨?_, ?_, ?_, rfl⟩
  · simp; omega
  · simp
  · intro i hi
    obtain ⟨k, rfl⟩ : ∃ k, i = k + 2 := ⟨i - 2, by omega⟩
    simp [List.getElem?_drop, Nat.add_comm]

/-- C12, witness: the channel identifier `UCabc`. -/
theorem uploadsPlaylistId_shape_witness :
    2 ≤ (utf16 "UCabc").length ∧ uploadsPlaylistId "UCabc" = utf16 "UUabc" ∧
      (uploadsPlaylistId "UCabc").length = (utf16 "UCabc").length :=
  ⟨by decide, by decide, (uploadsPlaylistId_shape "UCabc" (by decide)).1⟩

/-- C19: the two copies of `parseCSVLine` return the same list of fields for every line,
and that list is never empty. -/
theorem parseCSVLine_copies_agree (line : List Char) :
    Recent.parseCSVLine line = parseCSVLine line ∧ parseCSVLine line ≠ [] := by
  refine ⟨rfl, ?_⟩
  unfold parseCSVLine
  simp

/-! ## Theorems: clean fields -/

/-- What `trimEnd` returns is a prefix of its argument. -/
theorem trimEnd_initial (l : List Char) : trimEnd l <+: l := by
  unfold trimEnd
  have h := List.dropWhile_suffix (l := l.reverse) isJsWhiteSpace
  have h2 := List.reverse_prefix.mpr h
  simpa using h2

/-- What `trim` returns is a sublist of its argument. -/
theorem jsTrim_sublist (s : List Char) : (jsTrim s).Sublist s := by
  unfold jsTrim
  exact (trimEnd_initial _).sublist.trans (List.dropWhile_sublist _)

/-- A trimmed string does not start with white space. -/
theorem jsTrim_head (s : List Char) (c : Char) (h : (jsTrim s).head? = some c) :
    isJsWhiteSpace c = false := by
  unfold jsTrim at h
  obtain ⟨ys, hys⟩ := List.head?_eq_some_iff.mp h
  obtain ⟨t, ht⟩ := trimEnd_initial (s.dropWhile isJsWhiteSpace)
  rw [hys] at ht
  have h1 := List.head?_dropWhile_not isJsWhiteSpace s
  rw [← ht] at h1
  simpa using h1

/-- A trimmed string does not end with white space. -/
theorem jsTrim_last (s : List Char) (c : Char) (h : (jsTrim s).getLast? = some c) :
    isJsWhiteSpace c = false := by
  unfold jsTrim trimEnd at h
  rw [List.getLast?_reverse] at h
  have h1 := List.head?_dropWhile_not isJsWhiteSpace (s.dropWhile isJsWhiteSpace).reverse
  rw [h] at h1
  simpa using h1

/-- Trimming a string without double quotes gives a clean string. -/
theorem jsTrim_clean (s : List Char) (hq : '"' ∉ s) : Clean (jsTrim s) := by
  have hsub := jsTrim_sublist s
  have hq2 : '"' ∉ jsTrim s := fun h => hq (hsub.subset h)
  constructor
  · intro c hc
    refine ⟨jsTrim_head s c hc, ?_⟩
    rintro rfl
    exact hq2 (List.mem_of_mem_head? hc)
  · intro c hc
    refine ⟨jsTrim_last s c hc, ?_⟩
    rintro rfl
    exact hq2 (List.mem_of_mem_getLast? hc)

/-- Stripping the edge quotes returns a sublist. -/
theorem stripEdgeQuotes_sublist (s : List Char) : (stripEdgeQuotes s).Sublist s := by
  unfold stripEdgeQuotes
  simp only []
  split_ifs
  · exact (List.dropLast_sublist _).trans (List.tail_sublist _)
  · exact List.tail_sublist _
  · exact List.dropLast_sublist _
  · exact List.Sublist.refl _

/-- The cleaned form of a field without double quotes is clean. -/
theorem cleanField_clean (v : List Char) (hq : '"' ∉ v) : Clean (cleanField v).data := by
  unfold cleanField
  exact jsTrim_clean _ (fun h => hq ((stripEdgeQuotes_sublist v).subset h))

/-- The loop of `parseCSVLine` never puts a double quote into a value or into
`current`. -/
theorem foldl_step_noQuote (line : List Char) :
    ∀ st : LineState, (∀ f ∈ st.values, '"' ∉ f) → '"' ∉ st.current →
      (∀ f ∈ (line.foldl parseCSVLineStep st).values, '"' ∉ f) ∧
      '"' ∉ (line.foldl parseCSVLineStep st).current := by
  induction line with
  | nil => intro st h1 h2; exact ⟨h1, h2⟩
  | cons c cs ih =>
    intro st h1 h2
    rw [List.foldl_cons]
    apply ih
    · unfold parseCSVLineStep
      split_ifs with ha hb
      · exact h1
      · intro f hf
        rcases List.mem_append.mp hf with h | h
        · exact h1 f h
        · rw [List.mem_singleton.mp h]
          exact fun hm => h2 ((jsTrim_sublist _).subset hm)
      · exact h1
    · unfold parseCSVLineStep
      split_ifs with ha hb
      · exact h2
      · simp
      · intro hm
        rcases List.mem_append.mp hm with h | h
        · exact h2 h
        · exact ha (List.mem_singleton.mp h).symm

/-- No field returned by `parseCSVLine` holds a double quote. -/
theorem parseCSVLine_noQuote (line : List Char) : ∀ f ∈ parseCSVLine line, '"' ∉ f := by
  obtain ⟨h1, h2⟩ := foldl_step_noQuote line { values := [], current := [], inQuotes := false }
    (by simp) (by simp)
  unfold parseCSVLine
  intro f hf
  rcases List.mem_append.mp hf with h | h
  · exact h1 f h
  · rw [List.mem_singleton.mp h]
    exact fun hm => h2 ((jsTrim_sublist _).subset hm)

/-- Reading a field by index, with the empty string for a missing one, gives a string
without double quotes. -/
theorem getD_noQuote (values : List (List Char)) (h : ∀ f ∈ values, '"' ∉ f) (k : Nat) :
    '"' ∉ values.getD k [] := by
  rw [List.getD_eq_getElem?_getD]
  cases hk : values[k]? with
  | none => simp
  | some f => simpa using h f (List.getElem?_mem hk)

/-- The loop of `parseCSVLine` pushes clean values only. -/
theorem foldl_step_clean (line : List Char) :
    ∀ st : LineState, (∀ f ∈ st.values, Clean f) → '"' ∉ st.current →
      (∀ f ∈ (line.foldl parseCSVLineStep st).values, Clean f) ∧
      '"' ∉ (line.foldl parseCSVLineStep st).current := by
  induction line with
  | nil => intro st h1 h2; exact ⟨h1, h2⟩
  | cons c cs ih =>
    intro st h1 h2
    rw [List.foldl_cons]
    apply ih
    · unfold parseCSVLineStep
      split_ifs with ha hb
      · exact h1
      · intro f hf
        rcases List.mem_append.mp hf with h | h
        · exact h1 f h
        · rw [List.mem_singleton.mp h]
          exact jsTrim_clean _ h2
      · exact h1
    · unfold parseCSVLineStep
      split_ifs with ha hb
      · exact h2
      · simp
      · intro hm
        rcases List.mem_append.mp hm with h | h
        · exact h2 h
        · exact ha (List.mem_singleton.mp h).symm

/-- Every field returned by `parseCSVLine` is clean. -/
theorem parseCSVLine_clean (line : List Char) : ∀ f ∈ parseCSVLine line, Clean f := by
  obtain ⟨h1, h2⟩ := foldl_step_clean line { values := [], current := [], inQuotes := false }
    (by simp) (by simp)
  unfold parseCSVLine
  intro f hf
  rcases List.mem_append.mp hf with h | h
  · exact h1 f h
  · rw [List.mem_singleton.mp h]
    exact jsTrim_clean _ h2

/-- The text fields of the record of a row (live-status script) are clean. -/
theorem rowRecord_clean (row : List Char) (ch : Channel) (h : rowRecord row = some ch) :
    Clean ch.name.data ∧ Clean ch.url.data ∧ Clean ch.channelId.data := by
  unfold rowRecord at h
  split_ifs at h
  cases h
  have hq := parseCSVLine_noQuote (jsTrim row)
  exact ⟨cleanField_clean _ (getD_noQuote _ hq 0), cleanField_clean _ (getD_noQuote _ hq 1),
    cleanField_clean _ (getD_noQuote _ hq 2)⟩

/-- The text fields of the record of a row (recency script) are clean. -/
theorem Recent.recentRecord_clean (row : List Char) (ch : Recent.Channel)
    (h : Recent.rowRecord row = some ch) :
    Clean ch.channelId.data ∧ Clean ch.description.data := by
  unfold Recent.rowRecord at h
  split_ifs at h
  cases h
  have hq : ∀ f ∈ Recent.parseCSVLine (jsTrim row), '"' ∉ f := parseCSVLine_noQuote (jsTrim row)
  exact ⟨cleanField_clean _ (getD_noQuote _ hq 0), cleanField_clean _ (getD_noQuote _ hq 3)⟩

/-- C13: every field returned by `parseCSVLine` (either copy) has no leading or trailing
white space and no surrounding double quote, and so has every text field of a record
built by `parseCSV`: name, url and channelId in the live-status script, channelId and
description in the recency script. -/
theorem csv_fields_clean (line csvText : List Char) :
    (∀ f ∈ parseCSVLine line, Clean f) ∧
    (∀ f ∈ Recent.parseCSVLine line, Clean f) ∧
    (∀ ch ∈ parseCSV csvText,
      Clean ch.name.data ∧ Clean ch.url.data ∧ Clean ch.channelId.data) ∧
    (∀ ch ∈ Recent.parseCSV csvText, Clean ch.channelId.data ∧ Clean ch.description.data) := by
  refine ⟨parseCSVLine_clean line, parseCSVLine_clean line, ?_, ?_⟩
  · intro ch hch
    unfold parseCSV at hch
    rw [parseCSVLoop_eq_filterMap _ _ 1 [] rfl, List.nil_append] at hch
    obtain ⟨row, -, hrow⟩ := List.mem_filterMap.mp hch
    exact rowRecord_clean row ch hrow
  · intro ch hch
    unfold Recent.parseCSV at hch
    rw [Recent.recentCSVLoop_eq_filterMap _ _ 1 [] rfl, List.nil_append] at hch
    obtain ⟨row, -, hrow⟩ := List.mem_filterMap.mp hch
    exact Recent.recentRecord_clean row ch hrow

/-- C13, witness: the quoted first field of the sample line. -/
theorem csv_fields_clean_witness : Clean "Channel, Official".toList :=
  (csv_fields_clean sampleLine sampleSheet).1 _ (by decide)

/-! ## Theorems: what the recency loop keeps -/

/-- The Boolean test `passes` says that the tag is `none` and the age is not beyond
`maxDays` days. -/
theorem Recent.passes_iff (parse : String → Option Int) (now maxDays : Int) (item : Item) :
    Recent.passes parse now maxDays item = true ↔
      item.snippet.liveBroadcastContent = "none" ∧ Recent.AgeNotBeyond parse now maxDays item := by
  unfold Recent.passes Recent.AgeNotBeyond
  cases h : newDate parse (some item.snippet.publishedAt) with
  | none => simp
  | some t => simp

/-- One turn of the loop of `fetchChannelVideos`, by the test `passes`. -/
theorem Recent.videosLoop_passes (parse : String → Option Int) (now : Int)
    (channel : Recent.Channel) (item : Item) (rest : List Item) (videos : List Recent.Entry) :
    Recent.videosLoop parse now (channel.maxDays * 24 * 60 * 60 * 1000) channel (item :: rest) videos
      = if Recent.passes parse now channel.maxDays item = true then
          (if ((videos ++ [Recent.mkEntry channel item]).length : Int) ≥ channel.maxVideos
            then videos ++ [Recent.mkEntry channel item]
            else Recent.videosLoop parse now (channel.maxDays * 24 * 60 * 60 * 1000) channel rest
              (videos ++ [Recent.mkEntry channel item]))
        else Recent.videosLoop parse now (channel.maxDays * 24 * 60 * 60 * 1000) channel rest videos := by
  rw [Recent.videosLoop]
  unfold Recent.passes
  cases h : newDate parse (some item.snippet.publishedAt) with
  | none =>
    by_cases ht : item.snippet.liveBroadcastContent = "none" <;> simp [dateDiff, numGt, ht]
  | some t =>
    by_cases ht : item.snippet.liveBroadcastContent = "none" <;>
      by_cases ha : now - t ≤ channel.maxDays * 24 * 60 * 60 * 1000 <;>
      simp [dateDiff, numGt, ht, ha]

/-- The loop, started below the cap `k`, appends the entries of the first items that pass,
up to the cap. -/
theorem Recent.videosLoop_eq_take (parse : String → Option Int) (now : Int)
    (channel : Recent.Channel) (k : Nat) (hk : channel.maxVideos = (k : Int)) (items : List Item) :
    ∀ acc : List Recent.Entry, acc.length < k →
      Recent.videosLoop parse now (channel.maxDays * 24 * 60 * 60 * 1000) channel items acc
        = acc ++ (((items.filter (Recent.passes parse now channel.maxDays)).take
            (k - acc.length)).map (Recent.mkEntry channel)) := by
  induction items with
  | nil => intro acc _; simp [Recent.videosLoop]
  | cons item rest ih =>
    intro acc hacc
    rw [Recent.videosLoop_passes]
    by_cases hp : Recent.passes parse now channel.maxDays item = true
    · rw [if_pos hp, List.filter_cons_of_pos hp]
      obtain ⟨j, hj⟩ : ∃ j, k - acc.length = j + 1 := ⟨k - acc.length - 1, by omega⟩
      rw [hj, List.take_succ_cons, List.map_cons]
      by_cases hfull : ((acc ++ [Recent.mkEntry channel item]).length : Int) ≥ channel.maxVideos
      · rw [if_pos hfull]
        have hj0 : j = 0 := by
          rw [hk] at hfull
          simp only [List.length_append, List.length_singleton] at hfull
          omega
        rw [hj0]; simp
      · rw [if_neg hfull]
        have hlt : (acc ++ [Recent.mkEntry channel item]).length < k := by
          rw [hk] at hfull
          simp only [List.length_append, List.length_singleton] at hfull ⊢
          omega
        rw [ih _ hlt]
        have : k - (acc ++ [Recent.mkEntry channel item]).length = j := by
          simp only [List.length_append, List.length_singleton]; omega
        rw [this]; simp
    · rw [if_neg hp, List.filter_cons_of_neg hp]
      exact ih acc hacc

/-- For a channel with `maxVideos ≥ 1` the loop returns the entries of the first
`maxVideos` items, in fetch order, among those that pass its two tests. -/
theorem Recent.filterVideos_eq_take (parse : String → Option Int) (now : Int)
    (channel : Recent.Channel) (items : List Item) (h : 1 ≤ channel.maxVideos) :
    Recent.filterVideos parse now channel items
      = ((items.filter (Recent.passes parse now channel.maxDays)).take
          channel.maxVideos.toNat).map (Recent.mkEntry channel) := by
  unfold Recent.filterVideos
  have hk : channel.maxVideos = (channel.maxVideos.toNat : Int) := by omega
  rw [Recent.videosLoop_eq_take parse now channel channel.maxVideos.toNat hk items [] (by
    simp only [List.length_nil]; omega)]
  simp

/-- The description of an entry is the first 200 code units of the description of the
item. -/
theorem Recent.snippetDescription_eq (description : Option String) :
    Recent.snippetDescription description = firstUnits 200 description := by
  unfold Recent.snippetDescription firstUnits
  cases description with
  | none => rfl
  | some d =>
    simp only []
    split_ifs with h
    · exact h.symm
    · rfl

/-- C15: every entry the loop of `fetchChannelVideos` emits is the entry of a fetched
item; its description is the first 200 characters (UTF-16 code units) of the
description of the item, a prefix of it of length at most 200, and empty when the item
has no description; its category is the configured label of the channel record. -/
theorem Recent.entry_description_category (parse : String → Option Int) (now : Int)
    (channel : Recent.Channel) (items : List Item) (e : Recent.Entry)
    (he : e ∈ Recent.filterVideos parse now channel items) :
    ∃ item ∈ items, e = Recent.mkEntry channel item ∧
      e.description = firstUnits 200 item.snippet.description ∧
      e.description.length ≤ 200 ∧
      (∀ d, item.snippet.description = some d → e.description <+: utf16 d) ∧
      (item.snippet.description = none → e.description = []) ∧
      e.category = channel.description := by
  refine Recent.videosLoop_invariant parse now channel
    (fun e => ∃ item ∈ items, e = Recent.mkEntry channel item ∧
      e.description = firstUnits 200 item.snippet.description ∧
      e.description.length ≤ 200 ∧
      (∀ d, item.snippet.description = some d → e.description <+: utf16 d) ∧
      (item.snippet.description = none → e.description = []) ∧
      e.category = channel.description) items ?_ [] (by simp) e he
  intro item hi _ _
  have hd : (Recent.mkEntry channel item).description
      = firstUnits 200 item.snippet.description := Recent.snippetDescription_eq _
  refine ⟨item, hi, rfl, hd, ?_, ?_, ?_, rfl⟩
  · rw [hd]; unfold firstUnits
    cases item.snippet.description with
    | none => simp
    | some d => simp [List.length_take]
  · intro d hdd
    rw [hd, hdd]; exact List.take_prefix _ _
  · intro hn
    rw [hd, hn]; rfl

/-- C15, witness: the sample video. -/
theorem Recent.entry_description_category_witness :
    ∃ item ∈ [sampleVideo], Recent.mkEntry sampleChannel sampleVideo
        = Recent.mkEntry sampleChannel item ∧
      (Recent.mkEntry sampleChannel sampleVideo).description
        = firstUnits 200 item.snippet.description ∧
      (Recent.mkEntry sampleChannel sampleVideo).description.length ≤ 200 ∧
      (∀ d, item.snippet.description = some d →
        (Recent.mkEntry sampleChannel sampleVideo).description <+: utf16 d) ∧
      (item.snippet.description = none →
        (Recent.mkEntry sampleChannel sampleVideo).description = []) ∧
      (Recent.mkEntry sampleChannel sampleVideo).category = sampleChannel.description :=
  Recent.entry_description_category sampleParse 1700090000000 sampleChannel [sampleVideo]
    (Recent.mkEntry sampleChannel sampleVideo) (by decide)

/-! ## Theorems: the tunables of a channel row -/

/-- A decimal digit is not white space, not `x` or `X`, and not a sign. -/
theorem decDigit_not_space (c : Char) (h : (decDigit? c).isSome = true) :
    isJsWhiteSpace c = false ∧ c ≠ 'x' ∧ c ≠ 'X' ∧ c ≠ '-' ∧ c ≠ '+' := by
  by_cases hc : '0' ≤ c ∧ c ≤ '9'
  swap
  · simp [decDigit?, hc] at h
  have h1 : 48 ≤ c.toNat := hc.1
  have h2 : c.toNat ≤ 57 := hc.2
  refine ⟨?_, ?_, ?_, ?_, ?_⟩
  · unfold isJsWhiteSpace
    simp only [Bool.or_eq_false_iff, beq_eq_false_iff_ne, Bool.and_eq_false_iff,
      decide_eq_false_iff_not]
    refine ⟨⟨⟨⟨⟨⟨⟨⟨⟨⟨⟨⟨⟨⟨?_, ?_⟩, ?_⟩, ?_⟩, ?_⟩, ?_⟩, ?_⟩, ?_⟩, ?_⟩, ?_⟩, ?_⟩, ?_⟩, ?_⟩, ?_⟩, ?_⟩ <;>
      omega
  all_goals (rintro rfl; revert h2 h1; decide)

/-- On a run of decimal digits `readDigits` reads all of them. -/
theorem readDigits_all (digits : List Char)
    (h : digits.all (fun c => (decDigit? c).isSome) = true) :
    ∀ acc n, readDigits decDigit? 10 digits acc n
      = (digits.foldl (fun a c => a * 10 + (decDigit? c).getD 0) acc, n + digits.length) := by
  induction digits with
  | nil => intro acc n; simp [readDigits]
  | cons c cs ih =>
    intro acc n
    rw [List.all_cons, Bool.and_eq_true] at h
    obtain ⟨d, hd⟩ := Option.isSome_iff_exists.mp h.1
    rw [readDigits, hd]
    simp only []
    rw [ih h.2]
    simp [hd]; omega

/-- On a run of decimal digits the radix test of `parseInt` chooses radix 10. -/
theorem radix_of_digits (s2 : List Char) :
    s2.all (fun c => (decDigit? c).isSome) = true →
    parseInt.match_1 (fun _ => Nat × Nat) s2 (fun rest => readDigits hexDigit? 16 rest 0 0)
        (fun rest => readDigits hexDigit? 16 rest 0 0)
        (fun _ => readDigits decDigit? 10 s2 0 0)
      = readDigits decDigit? 10 s2 0 0 := by
  intro hall
  split
  · simp only [List.all_cons, Bool.and_eq_true] at hall
    exact absurd rfl (decDigit_not_space 'x' hall.2.1).2.1
  · simp only [List.all_cons, Bool.and_eq_true] at hall
    exact absurd rfl (decDigit_not_space 'X' hall.2.1).2.2.1
  · rfl

/-- Beyond 2^53 `parseInt` rounds as the engine does: the field `9007199254740993` is
read as `9007199254740992`. -/
theorem parseInt_rounds_beyond_safe :
    parseInt "9007199254740993".toList = some 9007199254740992 := by
  decide

/-- A mathematical integer below 2^53 is its own Number value. -/
theorem roundToDouble_small (fuel n : Nat) (h : n < 2 ^ 53) : roundToDouble fuel n = n := by
  unfold roundToDouble
  rw [if_pos h]

/-- `parseInt` on an optional sign followed by a non-empty run of decimal digits. -/
theorem parseInt_of_digits (s2 : List Char) (sign : Bool) (s : List Char)
    (hs1 : s.dropWhile isJsWhiteSpace = s)
    (hneg : (s.head? = some '-') ↔ sign = true)
    (hs2 : (if s.head? = some '-' ∨ s.head? = some '+' then s.tail else s) = s2)
    (hne : s2 ≠ [])
    (hall : s2.all (fun c => (decDigit? c).isSome) = true) :
    parseInt s
      = if sign = true
        then some (-((roundToDouble (4 * s2.length)
          (s2.foldl (fun a c => a * 10 + (decDigit? c).getD 0) 0) : Nat) : Int))
        else some ((roundToDouble (4 * s2.length)
          (s2.foldl (fun a c => a * 10 + (decDigit? c).getD 0) 0) : Nat) : Int) := by
  unfold parseInt
  simp only [hs1, hs2]
  have hlen : s2.length ≠ 0 := by
    have := List.length_pos.mpr hne
    omega
  have hr := radix_of_digits s2 hall
  rw [hr, readDigits_all s2 hall]
  simp only [Nat.zero_add, hlen, if_false]
  by_cases hsg : sign = true
  · have h1 : s.head? = some '-' := hneg.mpr hsg
    simp [h1, hsg]
  · have h1 : ¬ s.head? = some '-' := fun h => hsg (hneg.mp h)
    simp [h1, hsg]

/-- Nothing is dropped from a string whose first character is not white space. -/
theorem dropWhile_space_of_head (s : List Char)
    (h : ∀ c, s.head? = some c → isJsWhiteSpace c = false) :
    s.dropWhile isJsWhiteSpace = s := by
  cases s with
  | nil => rfl
  | cons c cs =>
    rw [List.dropWhile_cons_of_neg]
    simp [h c rfl]

/-- `parseInt` reads a decimal integer of magnitude below 2^53 as that integer. -/
theorem parseInt_decimalInteger (s : List Char) (n : Int) (h : decimalInteger? s = some n)
    (hlo : -(2 ^ 53) < n) (hhi : n < 2 ^ 53) :
    parseInt s = some n := by
  unfold decimalInteger? at h
  simp only [] at h
  by_cases hsign : s.head? = some '-' ∨ s.head? = some '+'
  · rw [if_pos hsign] at h
    have hs1 : s.dropWhile isJsWhiteSpace = s := by
      apply dropWhile_space_of_head
      intro c hc
      rcases hsign with h1 | h1 <;>
        · rw [hc] at h1
          cases h1
          decide
    by_cases hd : s.tail ≠ [] ∧ s.tail.all (fun c => (decDigit? c).isSome) = true
    · rw [if_pos hd] at h
      by_cases hm : s.head? = some '-'
      · rw [if_pos hm] at h
        have hn := Option.some.inj h
        have hv : s.tail.foldl (fun a c => a * 10 + (decDigit? c).getD 0) 0 < 2 ^ 53 := by
          omega
        rw [parseInt_of_digits s.tail true s hs1 (by simp [hm]) (by rw [if_pos hsign])
          hd.1 hd.2, roundToDouble_small _ _ hv, ← h]
        simp
      · rw [if_neg hm] at h
        have hn := Option.some.inj h
        have hv : s.tail.foldl (fun a c => a * 10 + (decDigit? c).getD 0) 0 < 2 ^ 53 := by
          omega
        rw [parseInt_of_digits s.tail false s hs1 (by simp [hm]) (by rw [if_pos hsign])
          hd.1 hd.2, roundToDouble_small _ _ hv, ← h]
        simp
    · rw [if_neg hd] at h
      cases h
  · rw [if_neg hsign] at h
    by_cases hd : s ≠ [] ∧ s.all (fun c => (decDigit? c).isSome) = true
    · rw [if_pos hd] at h
      have hm : ¬ s.head? = some '-' := fun hh => hsign (Or.inl hh)
      rw [if_neg hm] at h
      have hs1 : s.dropWhile isJsWhiteSpace = s := by
        apply dropWhile_space_of_head
        intro c hc
        obtain ⟨ys, hys⟩ := List.head?_eq_some_iff.mp hc
        have hall := hd.2
        rw [hys] at hall
        simp only [List.all_cons, Bool.and_eq_true] at hall
        exact (decDigit_not_space c hall.1).1
      have hn := Option.some.inj h
      have hv : s.foldl (fun a c => a * 10 + (decDigit? c).getD 0) 0 < 2 ^ 53 := by
        omega
      rw [parseInt_of_digits s false s hs1 (by simp [hm]) (by rw [if_neg hsign])
        hd.1 hd.2, roundToDouble_small _ _ hv, ← h]
      simp
    · rw [if_neg hd] at h
      cases h

/-- `parseInt(field) || dflt` reads the tunable of the field. -/
theorem Recent.parseIntOr_reads (field : List Char) (dflt : Int) :
    Recent.ReadsTunable field dflt (parseIntOr field dflt) := by
  unfold Recent.ReadsTunable parseIntOr
  refine ⟨?_, ?_, fun n h hlo hhi => parseInt_decimalInteger field n h hlo hhi⟩
  · intro n hn hne
    rw [hn]; simp [hne]
  · rintro (h | h) <;> rw [h]
    rfl

/-- C16, as amended: `parseCSV` of the recency script returns what the rows after the
header contribute, and a non-blank row with at least 4 fields contributes a record in
which `maxDays` is the number that `parseInt` returns for the second field and
`maxVideos` the one it returns for the third (for a field that is a decimal integer of
magnitude below 2^53, that integer), unless that number is zero; the defaults 7 and 5
are used exactly when `parseInt` returns `NaN` for the field or returns zero. -/
theorem Recent.parseCSV_tunables (csvText : List Char) :
    Recent.parseCSV csvText = ((splitLines csvText).drop 1).filterMap Recent.rowRecord ∧
    ∀ row : List Char, jsTrim row ≠ [] → 4 ≤ (Recent.parseCSVLine (jsTrim row)).length →
      ∃ ch, Recent.rowRecord row = some ch ∧
        Recent.ReadsTunable ((Recent.parseCSVLine (jsTrim row)).getD 1 []) 7 ch.maxDays ∧
        Recent.ReadsTunable ((Recent.parseCSVLine (jsTrim row)).getD 2 []) 5 ch.maxVideos := by
  constructor
  · unfold Recent.parseCSV
    rw [Recent.recentCSVLoop_eq_filterMap _ _ 1 [] rfl]; simp
  · intro row h1 h2
    have h3 : ¬ (Recent.parseCSVLine (jsTrim row)).length < 4 := by omega
    refine ⟨_, by unfold Recent.rowRecord; rw [if_neg h1, if_neg h3], ?_, ?_⟩
    · exact Recent.parseIntOr_reads _ 7
    · exact Recent.parseIntOr_reads _ 5

/-- C16, witness: the data row of the sample sheet. -/
theorem Recent.parseCSV_tunables_witness :
    ∃ ch, Recent.rowRecord "UCabc,7,-3,Sermons".toList = some ch ∧
      Recent.ReadsTunable
        ((Recent.parseCSVLine (jsTrim "UCabc,7,-3,Sermons".toList)).getD 1 []) 7 ch.maxDays ∧
      Recent.ReadsTunable
        ((Recent.parseCSVLine (jsTrim "UCabc,7,-3,Sermons".toList)).getD 2 []) 5 ch.maxVideos :=
  (Recent.parseCSV_tunables sampleSheet).2 "UCabc,7,-3,Sermons".toList (by decide) (by decide)

/-- The sheet with zero fields is read as one record with the default tunables. -/
theorem Recent.parseCSV_zeroSheet :
    Recent.parseCSV zeroSheet
      = [{ channelId := "UCabc", maxDays := 7, maxVideos := 5, description := "Sermons" }] := by
  unfold Recent.parseCSV
  rw [Recent.recentCSVLoop_eq_filterMap _ _ 1 [] rfl]
  decide

/-- C16, counterexample: the second and third field of the row give the integer 0, and
the record carries the defaults 7 and 5 instead. -/
theorem Recent.parseCSV_zero_fields_default :
    ¬ ∀ ch ∈ Recent.parseCSV zeroSheet,
      Recent.SetsGivenIntegers "UCabc,0,0,Sermons".toList ch := by
  rw [Recent.parseCSV_zeroSheet]
  intro h
  have h1 := (h _ (List.mem_singleton.mpr rfl)).1 0 (by decide)
  revert h1
  decide

/-! ## Theorems: the shape of emitted entries and the order of upcoming ones -/

/-- One turn of the classification loop leaves `videos` alone or pushes one entry of the
emitted shape. -/
theorem classifyStep_shape (parse : String → Option Int) (now next24Hours : Int)
    (channelId channelName : String) (videos : List LiveEntry) (item : Item) :
    classifyStep parse now next24Hours channelId channelName videos item = videos ∨
    ∃ e, classifyStep parse now next24Hours channelId channelName videos item = videos ++ [e] ∧
      EmittedShape parse e := by
  unfold classifyStep
  simp only []
  split_ifs with h1 h2 h3 h4 h5
  · left; rfl
  · left; rfl
  · right
    exact ⟨_, rfl, Or.inl ⟨rfl, rfl⟩⟩
  · cases hs : item.liveStreamingDetails.bind (·.scheduledStartTime) with
    | none => rw [hs] at h4; simp [truthy] at h4
    | some s =>
      have hne : s ≠ "" := by
        intro he; rw [hs, he] at h4; simp [truthy] at h4
      cases hd : newDate parse (some s) with
      | none => left; rfl
      | some t =>
        simp only []
        split_ifs with h6 h7
        · left; rfl
        · left; rfl
        · right
          exact ⟨_, rfl, Or.inr ⟨rfl, s, t, rfl, hne, hd⟩⟩
  · left; rfl
  · left; rfl

/-- Every entry returned by the classification loop has the emitted shape. -/
theorem classifyLoop_shape (parse : String → Option Int) (now : Int)
    (channelId channelName : String) (items : List Item) :
    ∀ e ∈ classifyLoop parse now channelId channelName items, EmittedShape parse e := by
  unfold classifyLoop
  suffices h : ∀ acc : List LiveEntry, (∀ e ∈ acc, EmittedShape parse e) →
      ∀ e ∈ items.foldl
        (classifyStep parse now (now + 24 * 60 * 60 * 1000) channelId channelName) acc,
        EmittedShape parse e from h [] (by simp)
  induction items with
  | nil => intro acc h e he; exact h e he
  | cons item rest ih =>
    intro acc hacc
    rw [List.foldl_cons]
    apply ih
    rcases classifyStep_shape parse now (now + 24 * 60 * 60 * 1000) channelId channelName
      acc item with h | ⟨x, h, hx⟩
    · rw [h]; exact hacc
    · rw [h]
      intro e he
      rcases List.mem_append.mp he with h1 | h1
      · exact hacc e h1
      · rw [List.mem_singleton.mp h1]; exact hx

/-- Every entry returned by `fetchChannelLivestreams` has the emitted shape. -/
theorem fetchChannelLivestreams_shape (parse : String → Option Int) (w : ChannelWorld)
    (channelId channelName : String) :
    ∀ e ∈ fetchChannelLivestreams parse w channelId channelName, EmittedShape parse e := by
  unfold fetchChannelLivestreams fetchChannelLivestreamsTry
  cases w.playlist (uploadsPlaylistId channelId) with
  | error e => simp
  | ok playlistData =>
    simp only []
    split_ifs with h1
    · simp
    · cases playlistData.items with
      | none => simp
      | some ids =>
        cases ids with
        | nil => simp
        | cons id ids =>
          simp only []
          cases w.videos (joinIds (id :: ids)) with
          | error e => simp
          | ok videosData =>
            simp only []
            cases videosData.error with
            | some err => simp
            | none => exact classifyLoop_shape parse w.now channelId channelName _

/-- Every entry collected by the per-channel loop of `main` has the emitted shape. -/
theorem collectLivestreams_shape (parse : String → Option Int)
    (runs : List (Channel × ChannelWorld)) :
    ∀ e ∈ collectLivestreams parse runs, EmittedShape parse e := by
  unfold collectLivestreams
  rw [foldl_collect]
  intro e he
  simp only [List.nil_append, List.mem_flatMap] at he
  obtain ⟨run, -, hrun⟩ := he
  exact fetchChannelLivestreams_shape parse run.2 run.1.channelId run.1.name e hrun

/-- The two status texts differ. -/
theorem upcoming_ne_live : ("upcoming" : String) ≠ "live" := by decide

/-- An upcoming entry of the emitted shape has a truthy scheduled time that is a valid
date. -/
theorem EmittedShape.time_of_upcoming {parse : String → Option Int} {e : LiveEntry}
    (h : EmittedShape parse e) (hu : e.status = "upcoming") :
    truthy e.scheduledTime = true ∧ ∃ t, newDate parse e.scheduledTime = some t := by
  rcases h with ⟨hl, -⟩ | ⟨-, s, t, hs, hne, ht⟩
  · rw [hl] at hu; exact absurd hu.symm upcoming_ne_live
  · rw [hs]
    exact ⟨by simp [truthy, hne], t, ht⟩

/-- An entry of the emitted shape is live or upcoming. -/
theorem EmittedShape.live_or_upcoming {parse : String → Option Int} {e : LiveEntry}
    (h : EmittedShape parse e) : e.status = "live" ∨ e.status = "upcoming" := by
  rcases h with ⟨hl, -⟩ | ⟨hu, -⟩
  · exact Or.inl hl
  · exact Or.inr hu

/-- The comparator on two upcoming entries with valid scheduled times is the difference
of the times. -/
theorem compareLive_upcoming (parse : String → Option Int) (rest : Option Int)
    (a b : LiveEntry) (ta tb : Int) (ha : a.status = "upcoming") (hb : b.status = "upcoming")
    (hta : truthy a.scheduledTime = true) (htb : truthy b.scheduledTime = true)
    (hda : newDate parse a.scheduledTime = some ta)
    (hdb : newDate parse b.scheduledTime = some tb) :
    compareLive parse rest a b = some (ta - tb) := by
  unfold compareLive
  have h1 : ¬ (a.status = "live" ∧ b.status ≠ "live") := by
    rintro ⟨h, -⟩; rw [ha] at h; exact upcoming_ne_live h
  have h2 : ¬ (a.status ≠ "live" ∧ b.status = "live") := by
    rintro ⟨-, h⟩; rw [hb] at h; exact upcoming_ne_live h
  rw [if_neg h1, if_neg h2, if_pos ⟨hta, htb⟩, hda, hdb]
  rfl

/-- Inserting an emitted entry keeps the upcoming entries in non-decreasing order. -/
theorem orderedInsert_upcomingAscending (parse : String → Option Int) (rest : Option Int)
    (x : LiveEntry) (hx : EmittedShape parse x) (l : List LiveEntry)
    (hl : ∀ e ∈ l, EmittedShape parse e) (h : UpcomingAscending parse l) :
    UpcomingAscending parse
      (l.orderedInsert (fun a b => (compareLive parse rest a b).getD 0 ≤ 0) x) := by
  induction l with
  | nil => simp [UpcomingAscending]
  | cons y ys ih =>
    unfold UpcomingAscending at h ih ⊢
    rw [List.pairwise_cons] at h
    have hy := hl y (List.mem_cons_self _ _)
    rw [List.orderedInsert]
    split_ifs with hr
    · rw [List.pairwise_cons]
      refine ⟨?_, List.pairwise_cons.mpr h⟩
      intro z hz hxu hzu
      obtain ⟨htx, tx, hdx⟩ := hx.time_of_upcoming hxu
      have hyu : y.status = "upcoming" := by
        rcases hy.live_or_upcoming with hyl | hyu
        · have hxl : x.status ≠ "live" := by
            rw [hxu]; exact upcoming_ne_live
          rw [compareLive_other_live parse rest x y hxl hyl] at hr
          simp at hr
        · exact hyu
      obtain ⟨hty, ty, hdy⟩ := hy.time_of_upcoming hyu
      rw [compareLive_upcoming parse rest x y tx ty hxu hyu htx hty hdx hdy] at hr
      simp only [Option.getD_some] at hr
      rcases List.mem_cons.mp hz with hzy | hzy
      · subst hzy
        exact ⟨tx, ty, hdx, hdy, by omega⟩
      · obtain ⟨ta, tb, hta, htb, hle⟩ := h.1 z hzy hyu hzu
        have e1 : ty = ta := Option.some.inj (hdy.symm.trans hta)
        exact ⟨tx, tb, hdx, htb, by omega⟩
    · rw [List.pairwise_cons]
      refine ⟨?_, ih (fun e he => hl e (List.mem_cons_of_mem _ he)) h.2⟩
      intro z hz hyu hzu
      rcases (List.mem_orderedInsert _).mp hz with hzx | hzy
      · subst hzx
        obtain ⟨htz, tz, hdz⟩ := hx.time_of_upcoming hzu
        obtain ⟨hty, ty, hdy⟩ := hy.time_of_upcoming hyu
        rw [compareLive_upcoming parse rest z y tz ty hzu hyu htz hty hdz hdy] at hr
        simp only [Option.getD_some] at hr
        exact ⟨ty, tz, hdy, hdz, by omega⟩
      · exact h.1 z hzy hyu hzu

/-- Sorting a list of emitted entries puts the upcoming entries in non-decreasing order
of scheduled time. -/
theorem sortLive_upcomingAscending (parse : String → Option Int) (rest : Option Int)
    (l : List LiveEntry) (hl : ∀ e ∈ l, EmittedShape parse e) :
    UpcomingAscending parse (sortLive parse rest l) := by
  unfold sortLive arraySort
  induction l with
  | nil => simp [UpcomingAscending]
  | cons x xs ih =>
    rw [List.insertionSort]
    have ih1 := ih (fun e he => hl e (List.mem_cons_of_mem _ he))
    refine orderedInsert_upcomingAscending parse rest x (hl x (List.mem_cons_self _ _)) _ ?_ ih1
    intro e he
    exact hl e (List.mem_cons_of_mem _ ((List.perm_insertionSort _ xs).subset he))

/-- C17: for every list of entries collected from `fetchChannelLivestreams`, the list
sorted with the comparator of `main` is a permutation of it, and in it the entries with
status `upcoming` stand in non-decreasing order of scheduled time; this holds whatever
the last `return` of the comparator yields. -/
theorem sortLive_upcoming_sorted_perm (parse : String → Option Int) (rest : Option Int)
    (runs : List (Channel × ChannelWorld)) :
    (sortLive parse rest (collectLivestreams parse runs)).Perm (collectLivestreams parse runs) ∧
    UpcomingAscending parse (sortLive parse rest (collectLivestreams parse runs)) :=
  ⟨List.perm_insertionSort _ _,
    sortLive_upcomingAscending parse rest _ (collectLivestreams_shape parse runs)⟩

/-- The value of the comparator, by the `return` statement it executes. -/
theorem compareLive_eq_branch (parse : String → Option Int) (rest : Option Int)
    (a b : LiveEntry) :
    compareLive parse rest a b
      = match compareLiveBranch a b with
        | .liveFirst => some (-1)
        | .liveSecond => some 1
        | .bySchedule =>
          dateDiff (newDate parse a.scheduledTime) (newDate parse b.scheduledTime)
        | .last => rest := by
  unfold compareLive compareLiveBranch
  split_ifs <;> rfl

/-- On two entries of the emitted shape the comparator reaches its last `return`
exactly when both are live. -/
theorem branch_last_iff (parse : String → Option Int) (a b : LiveEntry)
    (ha : EmittedShape parse a) (hb : EmittedShape parse b) :
    compareLiveBranch a b = CompareBranch.last ↔ a.status = "live" ∧ b.status = "live" := by
  unfold compareLiveBranch
  rcases ha with ⟨hal, has⟩ | ⟨hau, hat⟩ <;> rcases hb with ⟨hbl, hbs⟩ | ⟨hbu, hbt⟩
  · simp [hal, hbl, has, hbs, truthy]
  · have : b.status ≠ "live" := by rw [hbu]; exact upcoming_ne_live
    simp [hal, this]
  · have : a.status ≠ "live" := by rw [hau]; exact upcoming_ne_live
    simp [hbl, this]
  · have h1 : a.status ≠ "live" := by rw [hau]; exact upcoming_ne_live
    have h2 : b.status ≠ "live" := by rw [hbu]; exact upcoming_ne_live
    obtain ⟨sa, ta, hsa, hna, -⟩ := hat
    obtain ⟨sb, tb, hsb, hnb, -⟩ := hbt
    simp [h1, h2, hsa, hsb, truthy, hna, hnb]

/-- C18: every entry `fetchChannelLivestreams` emits has status `live` with scheduled time
`null`, or status `upcoming` with a non-empty scheduled time that is a valid date; so an
emitted entry that is not live has a scheduled time, and on two collected entries the
comparator of `main` reaches its last `return` only when both are live. -/
theorem emitted_entries_shape (parse : String → Option Int) (w : ChannelWorld)
    (channelId channelName : String) (runs : List (Channel × ChannelWorld)) :
    (∀ e ∈ fetchChannelLivestreams parse w channelId channelName,
      EmittedShape parse e ∧ (e.status ≠ "live" → truthy e.scheduledTime = true)) ∧
    (∀ a ∈ collectLivestreams parse runs, ∀ b ∈ collectLivestreams parse runs,
      compareLiveBranch a b = CompareBranch.last → a.status = "live" ∧ b.status = "live") := by
  constructor
  · intro e he
    have hs := fetchChannelLivestreams_shape parse w channelId channelName e he
    refine ⟨hs, fun hne => ?_⟩
    rcases hs.live_or_upcoming with h | h
    · exact absurd h hne
    · exact (hs.time_of_upcoming h).1
  · intro a ha b hb hlast
    exact (branch_last_iff parse a b (collectLivestreams_shape parse runs a ha)
      (collectLivestreams_shape parse runs b hb)).mp hlast

/-- C18, witness: the entry of the sample broadcast on air, as fetched in the sample
world. -/
theorem emitted_entries_shape_witness :
    EmittedShape sampleParse (mkLiveEntry "UCabc" "Chapel" sampleLive "live" none) ∧
    ((mkLiveEntry "UCabc" "Chapel" sampleLive "live" none).status ≠ "live" →
      truthy (mkLiveEntry "UCabc" "Chapel" sampleLive "live" none).scheduledTime = true) :=
  (emitted_entries_shape sampleParse sampleLiveWorld "UCabc" "Chapel" []).1 _ (by decide)

/-! ## Theorems: the fetch as its loop, item by item -/

/-- `fetchChannelLivestreams` returns what the classification loop returns on the fetched
items, at the fetch time of the call. -/
theorem fetchChannelLivestreams_eq_loop (parse : String → Option Int) (w : ChannelWorld)
    (channelId channelName : String) :
    fetchChannelLivestreams parse w channelId channelName
      = classifyLoop parse w.now channelId channelName
          (fetchedItems w (uploadsPlaylistId channelId)) := by
  unfold fetchChannelLivestreams fetchChannelLivestreamsTry fetchedItems
  cases w.playlist (uploadsPlaylistId channelId) with
  | error e => rfl
  | ok playlistData =>
    simp only []
    split_ifs with h1
    · rfl
    · cases playlistData.items with
      | none => rfl
      | some ids =>
        cases ids with
        | nil => rfl
        | cons id ids =>
          simp only []
          cases w.videos (joinIds (id :: ids)) with
          | error e => rfl
          | ok videosData =>
            simp only []
            cases videosData.error with
            | some err => rfl
            | none => rfl

/-- `fetchChannelVideos` returns what its loop returns on the fetched items, at the fetch
time of the call. -/
theorem Recent.fetchChannelVideos_eq_loop (parse : String → Option Int) (w : ChannelWorld)
    (channel : Recent.Channel) :
    Recent.fetchChannelVideos parse w channel
      = Recent.filterVideos parse w.now channel
          (fetchedItems w (Recent.uploadsPlaylistId channel.channelId)) := by
  unfold Recent.fetchChannelVideos Recent.fetchChannelVideosTry fetchedItems
  cases w.playlist (Recent.uploadsPlaylistId channel.channelId) with
  | error e => rfl
  | ok playlistData =>
    simp only []
    split_ifs with h1
    · rfl
    · cases playlistData.items with
      | none => rfl
      | some ids =>
        cases ids with
        | nil => rfl
        | cons id ids =>
          simp only []
          cases w.videos (joinIds (id :: ids)) with
          | error e => rfl
          | ok videosData =>
            simp only []
            cases videosData.error with
            | some err => rfl
            | none => rfl

/-- One turn of the classification loop appends to `videos` what it pushes from an empty
`videos`. -/
theorem classifyStep_append (parse : String → Option Int) (now next24Hours : Int)
    (channelId channelName : String) (videos : List LiveEntry) (item : Item) :
    classifyStep parse now next24Hours channelId channelName videos item
      = videos ++ classifyStep parse now next24Hours channelId channelName [] item := by
  unfold classifyStep
  simp only []
  split_ifs
  · simp
  · simp
  · simp
  · cases newDate parse (item.liveStreamingDetails.bind (·.scheduledStartTime)) with
    | none => simp
    | some t =>
      simp only []
      split_ifs <;> simp
  · simp
  · simp

/-- The classification loop appends, item by item, what one turn pushes for the item. -/
theorem classifyLoop_foldl (parse : String → Option Int) (now next24Hours : Int)
    (channelId channelName : String) (items : List Item) :
    ∀ acc : List LiveEntry,
      items.foldl (classifyStep parse now next24Hours channelId channelName) acc
        = acc ++ items.flatMap
            (fun item => classifyStep parse now next24Hours channelId channelName [] item) := by
  induction items with
  | nil => intro acc; simp
  | cons item rest ih =>
    intro acc
    rw [List.foldl_cons, ih, classifyStep_append]
    simp

/-- The classification loop on a list around an item: what it returns for the items
before, then what one turn pushes for the item, then what it returns for the items
after. -/
theorem classifyLoop_split (parse : String → Option Int) (now : Int)
    (channelId channelName : String) (before after : List Item) (item : Item) :
    classifyLoop parse now channelId channelName (before ++ item :: after)
      = classifyLoop parse now channelId channelName before ++
        classifyStep parse now (now + 24 * 60 * 60 * 1000) channelId channelName [] item ++
        classifyLoop parse now channelId channelName after := by
  unfold classifyLoop
  rw [classifyLoop_foldl, classifyLoop_foldl, classifyLoop_foldl]
  simp

/-- What one turn pushes for an upcoming item with a valid scheduled time `t`. -/
theorem classifyStep_upcoming_eq (parse : String → Option Int) (now : Int)
    (channelId channelName : String) (item : Item) (t : Int)
    (htag : item.snippet.liveBroadcastContent = "upcoming")
    (hstart : truthy (actualStartTime item) = false)
    (hend : truthy (actualEndTime item) = false)
    (hdate : newDate parse (scheduledStartTime item) = some t) :
    classifyStep parse now (now + 24 * 60 * 60 * 1000) channelId channelName [] item
      = if now - t ≤ 60 * 60 * 1000 ∧ t ≤ now + 24 * 60 * 60 * 1000
        then [mkLiveEntry channelId channelName item "upcoming" (scheduledStartTime item)]
        else [] := by
  have h := classifyStep_upcoming_iff parse now channelId channelName [] item t htag hstart hend hdate
  by_cases hw : now - t ≤ 60 * 60 * 1000 ∧ t ≤ now + 24 * 60 * 60 * 1000
  · rw [if_pos hw, h.1.mpr hw]; rfl
  · rw [if_neg hw, h.2.1.mpr hw]

/-- C2: an item with tag `upcoming`, no actual start, no actual end and a scheduled time
that is a valid date `t` is accepted exactly when `t` is not more than one hour in the
past and not more than 24 hours in the future of the fetch time: wherever the item
stands among the fetched items, the classification loop, and `fetchChannelLivestreams`,
return its entry with status `upcoming` at its place when `t` is in that window, and
nothing for it otherwise.  So `now + 25h` and `now - 90min` are rejected, `now + 23h` and
`now - 30min` are accepted. -/
theorem upcoming_accepted_in_window (parse : String → Option Int)
    (channelId channelName : String) (item : Item) (t : Int)
    (htag : item.snippet.liveBroadcastContent = "upcoming")
    (hstart : truthy (actualStartTime item) = false)
    (hend : truthy (actualEndTime item) = false)
    (hdate : newDate parse (scheduledStartTime item) = some t) :
    (∀ (now : Int) (before after : List Item),
      classifyLoop parse now channelId channelName (before ++ item :: after)
        = classifyLoop parse now channelId channelName before ++
          (if now - t ≤ 60 * 60 * 1000 ∧ t ≤ now + 24 * 60 * 60 * 1000
            then [mkLiveEntry channelId channelName item "upcoming" (scheduledStartTime item)]
            else []) ++
          classifyLoop parse now channelId channelName after) ∧
    (∀ (w : ChannelWorld) (before after : List Item),
      fetchedItems w (uploadsPlaylistId channelId) = before ++ item :: after →
      fetchChannelLivestreams parse w channelId channelName
        = classifyLoop parse w.now channelId channelName before ++
          (if w.now - t ≤ 60 * 60 * 1000 ∧ t ≤ w.now + 24 * 60 * 60 * 1000
            then [mkLiveEntry channelId channelName item "upcoming" (scheduledStartTime item)]
            else []) ++
          classifyLoop parse w.now channelId channelName after) ∧
    (∀ now : Int,
      mkLiveEntry channelId channelName item "upcoming" (scheduledStartTime item)
          ∈ classifyLoop parse now channelId channelName [item]
        ↔ (now - t ≤ 60 * 60 * 1000 ∧ t ≤ now + 24 * 60 * 60 * 1000)) ∧
    (∀ now : Int, t = now + 25 * 60 * 60 * 1000 →
      classifyLoop parse now channelId channelName [item] = []) ∧
    (∀ now : Int, t = now + 23 * 60 * 60 * 1000 →
      classifyLoop parse now channelId channelName [item]
        = [mkLiveEntry channelId channelName item "upcoming" (scheduledStartTime item)]) ∧
    (∀ now : Int, t = now - 90 * 60 * 1000 →
      classifyLoop parse now channelId channelName [item] = []) ∧
    (∀ now : Int, t = now - 30 * 60 * 1000 →
      classifyLoop parse now channelId channelName [item]
        = [mkLiveEntry channelId channelName item "upcoming" (scheduledStartTime item)]) := by
  have hsplit : ∀ (now : Int) (before after : List Item),
      classifyLoop parse now channelId channelName (before ++ item :: after)
        = classifyLoop parse now channelId channelName before ++
          (if now - t ≤ 60 * 60 * 1000 ∧ t ≤ now + 24 * 60 * 60 * 1000
            then [mkLiveEntry channelId channelName item "upcoming" (scheduledStartTime item)]
            else []) ++
          classifyLoop parse now channelId channelName after := by
    intro now before after
    rw [classifyLoop_split,
      classifyStep_upcoming_eq parse now channelId channelName item t htag hstart hend hdate]
  have hone : ∀ now : Int, classifyLoop parse now channelId channelName [item]
      = if now - t ≤ 60 * 60 * 1000 ∧ t ≤ now + 24 * 60 * 60 * 1000
        then [mkLiveEntry channelId channelName item "upcoming" (scheduledStartTime item)]
        else [] := by
    intro now
    have h := hsplit now [] []
    simpa [classifyLoop] using h
  refine ⟨hsplit, ?_, ?_, ?_, ?_, ?_, ?_⟩
  · intro w before after hw
    rw [fetchChannelLivestreams_eq_loop, hw]
    exact hsplit w.now before after
  · intro now
    rw [hone now]
    by_cases hw : now - t ≤ 60 * 60 * 1000 ∧ t ≤ now + 24 * 60 * 60 * 1000
    · simp [hw]
    · simp [hw]
  · intro now ht; rw [hone now, if_neg (by omega)]
  · intro now ht; rw [hone now, if_pos (by omega)]
  · intro now ht; rw [hone now, if_neg (by omega)]
  · intro now ht; rw [hone now, if_pos (by omega)]

/-- C2, witness: the sample broadcast fetched 23 hours before its scheduled time. -/
theorem upcoming_accepted_in_window_witness :
    (sampleUpcoming.snippet.liveBroadcastContent = "upcoming" ∧
      truthy (actualStartTime sampleUpcoming) = false ∧
      truthy (actualEndTime sampleUpcoming) = false ∧
      newDate sampleParse (scheduledStartTime sampleUpcoming) = some 1700000000000) ∧
    classifyLoop sampleParse 1699917200000 "UCx" "Chapel" [sampleUpcoming]
      = [mkLiveEntry "UCx" "Chapel" sampleUpcoming "upcoming"
          (scheduledStartTime sampleUpcoming)] :=
  ⟨⟨by decide, by decide, by decide, by decide⟩,
    (upcoming_accepted_in_window sampleParse "UCx" "Chapel" sampleUpcoming 1700000000000
      (by decide) (by decide) (by decide) (by decide)).2.2.2.2.1 1699917200000 (by decide)⟩

/-- What one turn pushes for an item on air. -/
theorem classifyStep_live_eq (parse : String → Option Int) (now next24Hours : Int)
    (channelId channelName : String) (item : Item)
    (hend : truthy (actualEndTime item) = false)
    (hlive : item.snippet.liveBroadcastContent = "live" ∨ truthy (actualStartTime item) = true) :
    classifyStep parse now next24Hours channelId channelName [] item
      = [mkLiveEntry channelId channelName item "live" none] :=
  ((classifyStep_live_or_ended parse now next24Hours channelId channelName [] item).1
    hend hlive).1

/-- What one turn pushes for an item with an actual-end timestamp: nothing. -/
theorem classifyStep_ended_eq (parse : String → Option Int) (now next24Hours : Int)
    (channelId channelName : String) (item : Item)
    (hend : truthy (actualEndTime item) = true) :
    classifyStep parse now next24Hours channelId channelName [] item = [] :=
  (classifyStep_live_or_ended parse now next24Hours channelId channelName [] item).2 hend

/-- C11: an item without an actual-end timestamp that has tag `live` or an actual-start
timestamp is accepted: wherever it stands among the fetched items, the classification
loop, and `fetchChannelLivestreams`, return exactly one entry for it at its place, with
status `live` and scheduled time `null`; and an item with an actual-end timestamp is
rejected whatever its tag: they return nothing for it. -/
theorem live_accepted_ended_rejected (parse : String → Option Int)
    (channelId channelName : String) (item : Item) :
    (truthy (actualEndTime item) = false →
      (item.snippet.liveBroadcastContent = "live" ∨ truthy (actualStartTime item) = true) →
      (∀ (now : Int) (before after : List Item),
        classifyLoop parse now channelId channelName (before ++ item :: after)
          = classifyLoop parse now channelId channelName before ++
            [mkLiveEntry channelId channelName item "live" none] ++
            classifyLoop parse now channelId channelName after) ∧
      (∀ (w : ChannelWorld) (before after : List Item),
        fetchedItems w (uploadsPlaylistId channelId) = before ++ item :: after →
        fetchChannelLivestreams parse w channelId channelName
          = classifyLoop parse w.now channelId channelName before ++
            [mkLiveEntry channelId channelName item "live" none] ++
            classifyLoop parse w.now channelId channelName after) ∧
      (mkLiveEntry channelId channelName item "live" none).status = "live" ∧
      (mkLiveEntry channelId channelName item "live" none).scheduledTime = none) ∧
    (truthy (actualEndTime item) = true →
      (∀ (now : Int) (before after : List Item),
        classifyLoop parse now channelId channelName (before ++ item :: after)
          = classifyLoop parse now channelId channelName before ++
            classifyLoop parse now channelId channelName after) ∧
      (∀ (w : ChannelWorld) (before after : List Item),
        fetchedItems w (uploadsPlaylistId channelId) = before ++ item :: after →
        fetchChannelLivestreams parse w channelId channelName
          = classifyLoop parse w.now channelId channelName before ++
            classifyLoop parse w.now channelId channelName after)) := by
  constructor
  · intro hend hlive
    have hsplit : ∀ (now : Int) (before after : List Item),
        classifyLoop parse now channelId channelName (before ++ item :: after)
          = classifyLoop parse now channelId channelName before ++
            [mkLiveEntry channelId channelName item "live" none] ++
            classifyLoop parse now channelId channelName after := by
      intro now before after
      rw [classifyLoop_split, classifyStep_live_eq parse now _ channelId channelName item
        hend hlive]
    refine ⟨hsplit, ?_, rfl, rfl⟩
    intro w before after hw
    rw [fetchChannelLivestreams_eq_loop, hw]
    exact hsplit w.now before after
  · intro hend
    have hsplit : ∀ (now : Int) (before after : List Item),
        classifyLoop parse now channelId channelName (before ++ item :: after)
          = classifyLoop parse now channelId channelName before ++
            classifyLoop parse now channelId channelName after := by
      intro now before after
      rw [classifyLoop_split, classifyStep_ended_eq parse now _ channelId channelName item hend]
      simp
    refine ⟨hsplit, ?_⟩
    intro w before after hw
    rw [fetchChannelLivestreams_eq_loop, hw]
    exact hsplit w.now before after

/-- C11, witness: the sample broadcast on air, as fetched in the sample world. -/
theorem live_accepted_ended_rejected_witness :
    (truthy (actualEndTime sampleLive) = false ∧
      (sampleLive.snippet.liveBroadcastContent = "live" ∨
        truthy (actualStartTime sampleLive) = true)) ∧
    fetchedItems sampleLiveWorld (uploadsPlaylistId "UCabc") = [] ++ sampleLive :: [] ∧
    fetchChannelLivestreams sampleParse sampleLiveWorld "UCabc" "Chapel"
      = classifyLoop sampleParse sampleLiveWorld.now "UCabc" "Chapel" [] ++
        [mkLiveEntry "UCabc" "Chapel" sampleLive "live" none] ++
        classifyLoop sampleParse sampleLiveWorld.now "UCabc" "Chapel" [] :=
  ⟨⟨by decide, Or.inl (by decide)⟩, by decide,
    ((live_accepted_ended_rejected sampleParse "UCabc" "Chapel" sampleLive).1 (by decide)
      (Or.inl (by decide))).2.1 sampleLiveWorld [] [] (by decide)⟩

/-! ## Theorems: the recency loop on dated items -/

/-- On items with valid published times, every entry the loop emits is the entry of an
item within age and with tag `none`. -/
theorem Recent.filterVideos_within (parse : String → Option Int) (now : Int)
    (channel : Recent.Channel) (items : List Item)
    (hdated : ∀ item ∈ items, Recent.dated parse item = true) :
    ∀ e ∈ Recent.filterVideos parse now channel items,
      ∃ item ∈ items, e = Recent.mkEntry channel item ∧
        Recent.AgeWithin parse now channel.maxDays item ∧
        item.snippet.liveBroadcastContent = "none" := by
  intro e he
  refine Recent.videosLoop_invariant parse now channel
    (fun e => ∃ item ∈ items, e = Recent.mkEntry channel item ∧
      Recent.AgeWithin parse now channel.maxDays item ∧
      item.snippet.liveBroadcastContent = "none") items ?_ [] (by simp) e he
  intro item hi htag hage
  obtain ⟨t, ht⟩ := Option.isSome_iff_exists.mp (hdated item hi)
  exact ⟨item, hi, rfl, ⟨t, ht, hage t ht⟩, htag⟩

/-- C3: on fetched items whose published times are valid dates, as the platform sends
them, every entry that the loop of `fetchChannelVideos`, and `fetchChannelVideos`
itself, emits is the entry of a fetched item whose age (now minus its published time) is
at most `maxDays` days for the channel and whose broadcast-content tag is `none`. -/
theorem Recent.emitted_within_age (parse : String → Option Int) (now : Int)
    (w : ChannelWorld) (channel : Recent.Channel) (items : List Item) :
    ((∀ item ∈ items, Recent.dated parse item = true) →
      ∀ e ∈ Recent.filterVideos parse now channel items,
        ∃ item ∈ items, e = Recent.mkEntry channel item ∧
          Recent.AgeWithin parse now channel.maxDays item ∧
          item.snippet.liveBroadcastContent = "none") ∧
    ((∀ item ∈ fetchedItems w (Recent.uploadsPlaylistId channel.channelId),
        Recent.dated parse item = true) →
      ∀ e ∈ Recent.fetchChannelVideos parse w channel,
        ∃ item ∈ fetchedItems w (Recent.uploadsPlaylistId channel.channelId),
          e = Recent.mkEntry channel item ∧
          Recent.AgeWithin parse w.now channel.maxDays item ∧
          item.snippet.liveBroadcastContent = "none") := by
  refine ⟨Recent.filterVideos_within parse now channel items, ?_⟩
  intro hd
  rw [Recent.fetchChannelVideos_eq_loop]
  exact Recent.filterVideos_within parse w.now channel _ hd

/-- C3, witness: the sample video fetched a little more than a day after publication. -/
theorem Recent.emitted_within_age_witness :
    ∃ item ∈ [sampleVideo], Recent.mkEntry sampleChannel sampleVideo
        = Recent.mkEntry sampleChannel item ∧
      Recent.AgeWithin sampleParse 1700090000000 sampleChannel.maxDays item ∧
      item.snippet.liveBroadcastContent = "none" :=
  (Recent.emitted_within_age sampleParse 1700090000000 sampleLiveWorld sampleChannel
    [sampleVideo]).1 (by decide) (Recent.mkEntry sampleChannel sampleVideo) (by decide)

/-- On an item with a valid published time the two tests of the loop are the acceptance
predicate of the specification. -/
theorem Recent.passes_eq_withinAge (parse : String → Option Int) (now maxDays : Int)
    (item : Item) (h : Recent.dated parse item = true) :
    Recent.passes parse now maxDays item = Recent.withinAge parse now maxDays item := by
  unfold Recent.passes Recent.withinAge
  obtain ⟨t, ht⟩ := Option.isSome_iff_exists.mp h
  rw [ht]

/-- For a channel with `maxVideos ≥ 1` and items with valid published times, the loop
returns the entries of the first `maxVideos` accepted items. -/
theorem Recent.filterVideos_eq_take_within (parse : String → Option Int) (now : Int)
    (channel : Recent.Channel) (items : List Item) (h : 1 ≤ channel.maxVideos)
    (hdated : ∀ item ∈ items, Recent.dated parse item = true) :
    Recent.filterVideos parse now channel items
      = ((items.filter (Recent.withinAge parse now channel.maxDays)).take
          channel.maxVideos.toNat).map (Recent.mkEntry channel) := by
  rw [Recent.filterVideos_eq_take parse now channel items h]
  congr 2
  apply List.filter_congr
  intro item hi
  exact Recent.passes_eq_withinAge parse now channel.maxDays item (hdated item hi)

/-- C14: for a channel with `maxVideos ≥ 1` and fetched items whose published times are
valid dates, as the platform sends them, the list that the loop of `fetchChannelVideos`,
and `fetchChannelVideos` itself, returns is exactly the entries of the first `maxVideos`
items, in fetch order, of the sub-list of items satisfying the acceptance predicate (age
within `maxDays` and tag `none`); later items are ignored. -/
theorem Recent.returns_first_accepted (parse : String → Option Int) (now : Int)
    (w : ChannelWorld) (channel : Recent.Channel) (items : List Item)
    (h : 1 ≤ channel.maxVideos) :
    ((∀ item ∈ items, Recent.dated parse item = true) →
      Recent.filterVideos parse now channel items
        = ((items.filter (Recent.withinAge parse now channel.maxDays)).take
            channel.maxVideos.toNat).map (Recent.mkEntry channel)) ∧
    ((∀ item ∈ fetchedItems w (Recent.uploadsPlaylistId channel.channelId),
        Recent.dated parse item = true) →
      Recent.fetchChannelVideos parse w channel
        = (((fetchedItems w (Recent.uploadsPlaylistId channel.channelId)).filter
            (Recent.withinAge parse w.now channel.maxDays)).take
            channel.maxVideos.toNat).map (Recent.mkEntry channel)) := by
  refine ⟨Recent.filterVideos_eq_take_within parse now channel items h, ?_⟩
  intro hd
  rw [Recent.fetchChannelVideos_eq_loop]
  exact Recent.filterVideos_eq_take_within parse w.now channel _ h hd

/-- C14, witness: a cap of one video and two accepted sample videos; the second is
ignored. -/
theorem Recent.returns_first_accepted_witness :
    1 ≤ sampleCapChannel.maxVideos ∧
    ([sampleVideo, sampleNewer].filter
      (Recent.withinAge sampleParse 1700090000000 sampleCapChannel.maxDays)).length = 2 ∧
    Recent.filterVideos sampleParse 1700090000000 sampleCapChannel [sampleVideo, sampleNewer]
      = [Recent.mkEntry sampleCapChannel sampleVideo] :=
  ⟨by decide, by decide,
    ((Recent.returns_first_accepted sampleParse 1700090000000 sampleLiveWorld sampleCapChannel
      [sampleVideo, sampleNewer] (by decide)).1 (by decide)).trans (by decide)⟩

end LatinMass
